import Mathlib

/-!
Verification development for the `backtest` repository.

The Python sources are shallowly embedded in Lean:
* Python `float` values (prices, PnL percentages, cash, timestamps) are
  modelled as exact rationals `ℚ`;
* Python `int` values are modelled as `ℤ` / `ℕ`;
* Python dicts (which preserve insertion order) are modelled as association
  lists with `pydictInsert` / `pydictErase` / `pydictGet`;
* `numpy.std` takes a real square root; its comparisons against rational
  bounds are decided by the equivalent comparisons of squares
  (`gtMulSqrt`), proved equivalent to the `Real.sqrt` statements below;
* file-system reads are modelled by `Option`: a day file that cannot be
  read is `none`.
-/

/-- Lookup in a Python dict modelled as an insertion-ordered association
list (`d[k]` / `d.get(k)`). -/
def pydictGet {α β : Type} [DecidableEq α] (k : α) : List (α × β) → Option β
  | [] => none
  | (k2, v) :: rest => if k2 = k then some v else pydictGet k rest

/-- Membership test for a Python dict (`k in d`). -/
def pydictMem {α β : Type} [DecidableEq α] (k : α) (l : List (α × β)) : Bool :=
  (pydictGet k l).isSome

/-- Assignment `d[k] = v` on a Python dict: update in place if the key is
present, otherwise append at the end (Python dicts keep insertion order). -/
def pydictInsert {α β : Type} [DecidableEq α] (k : α) (v : β) : List (α × β) → List (α × β)
  | [] => [(k, v)]
  | (k2, v2) :: rest =>
      if k2 = k then (k2, v) :: rest else (k2, v2) :: pydictInsert k v rest

/-- Deletion `del d[k]` on a Python dict (keys are unique in a dict, so
removing the first occurrence suffices). -/
def pydictErase {α β : Type} [DecidableEq α] (k : α) : List (α × β) → List (α × β)
  | [] => []
  | (k2, v2) :: rest => if k2 = k then rest else (k2, v2) :: pydictErase k rest

/-- Python `int(x)` on a float: truncation toward zero. -/
def pyInt (q : ℚ) : ℤ :=
  if 0 ≤ q then ⌊q⌋ else ⌈q⌉

/-- Mean of a list of rationals, `numpy.mean` (the empty case, where numpy
would produce `nan`, is only ever reached behind emptiness guards in the
source; `ℚ` gives `0/0 = 0` there). -/
def npMean (l : List ℚ) : ℚ :=
  l.sum / l.length

/-- Population variance of a list of rationals; `numpy.std` is its square
root. -/
def npVar (l : List ℚ) : ℚ :=
  ((l.map (fun x => (x - npMean l) ^ 2)).sum) / l.length

/-- Decides the real-number comparison `m * Real.sqrt v < x` (for `0 ≤ v`)
by comparing squares, so that the strategy's `numpy.std` threshold tests
stay executable over `ℚ`.  `stdCmp_gtMulSqrt` below proves the
equivalence. -/
def gtMulSqrt (x m v : ℚ) : Bool :=
  if 0 ≤ m then decide (0 < x ∧ m ^ 2 * v < x ^ 2)
  else decide (0 < x ∨ x ^ 2 < m ^ 2 * v)

theorem npVar_nonneg (l : List ℚ) : 0 ≤ npVar l := by
  unfold npVar
  apply div_nonneg
  · apply List.sum_nonneg
    intro x hx
    obtain ⟨y, _, rfl⟩ := List.mem_map.mp hx
    positivity
  · positivity

/-- The decidable square comparison `gtMulSqrt` agrees with the real
statement `m * √v < x`. -/
theorem stdCmp_gtMulSqrt (x m v : ℚ) (hv : 0 ≤ v) :
    gtMulSqrt x m v = true ↔ (m : ℝ) * Real.sqrt (v : ℝ) < (x : ℝ) := by
  have hv' : (0 : ℝ) ≤ (v : ℝ) := by exact_mod_cast hv
  have hs : (0 : ℝ) ≤ Real.sqrt (v : ℝ) := Real.sqrt_nonneg _
  have hsq : Real.sqrt (v : ℝ) ^ 2 = (v : ℝ) := Real.sq_sqrt hv'
  unfold gtMulSqrt
  by_cases hm : 0 ≤ m
  · simp only [hm, if_pos, decide_eq_true_eq]
    have hms : (0 : ℝ) ≤ (m : ℝ) * Real.sqrt (v : ℝ) := by
      apply mul_nonneg _ hs
      exact_mod_cast hm
    constructor
    · rintro ⟨hx, hlt⟩
      have hx' : (0 : ℝ) < (x : ℝ) := by exact_mod_cast hx
      have hlt' : ((m : ℝ) * Real.sqrt (v : ℝ)) ^ 2 < (x : ℝ) ^ 2 := by
        have : ((m : ℝ) * Real.sqrt (v : ℝ)) ^ 2 = (m : ℝ) ^ 2 * (v : ℝ) := by
          rw [mul_pow, hsq]
        rw [this]
        exact_mod_cast hlt
      nlinarith [sq_nonneg ((x : ℝ) - (m : ℝ) * Real.sqrt (v : ℝ))]
    · intro h
      have hx' : (0 : ℝ) < (x : ℝ) := lt_of_le_of_lt hms h
      constructor
      · exact_mod_cast hx'
      · have : ((m : ℝ) * Real.sqrt (v : ℝ)) ^ 2 < (x : ℝ) ^ 2 := by
          apply sq_lt_sq' _ h
          nlinarith
        have h2 : (m : ℝ) ^ 2 * (v : ℝ) < (x : ℝ) ^ 2 := by
          calc (m : ℝ) ^ 2 * (v : ℝ) = ((m : ℝ) * Real.sqrt (v : ℝ)) ^ 2 := by
                rw [mul_pow, hsq]
            _ < (x : ℝ) ^ 2 := this
        exact_mod_cast h2
  · simp only [hm, if_neg, not_false_iff, decide_eq_true_eq]
    have hm' : (m : ℝ) < 0 := by
      push_neg at hm
      exact_mod_cast hm
    have hms : (m : ℝ) * Real.sqrt (v : ℝ) ≤ 0 := mul_nonpos_of_nonpos_of_nonneg hm'.le hs
    constructor
    · rintro (hx | hlt)
      · have hx' : (0 : ℝ) < (x : ℝ) := by exact_mod_cast hx
        exact lt_of_le_of_lt hms hx'
      · have hlt' : (x : ℝ) ^ 2 < (m : ℝ) ^ 2 * (v : ℝ) := by exact_mod_cast hlt
        have hb2 : (x : ℝ) ^ 2 < ((m : ℝ) * Real.sqrt (v : ℝ)) ^ 2 := by
          rw [mul_pow, hsq]; exact hlt'
        by_contra hcon
        push_neg at hcon
        nlinarith
    · intro h
      by_cases hx : 0 < x
      · exact Or.inl hx
      · right
        push_neg at hx
        have hx' : (x : ℝ) ≤ 0 := by exact_mod_cast hx
        have : (x : ℝ) ^ 2 < ((m : ℝ) * Real.sqrt (v : ℝ)) ^ 2 := by
          nlinarith
        have h2 : (x : ℝ) ^ 2 < (m : ℝ) ^ 2 * (v : ℝ) := by
          rw [mul_pow, hsq] at this; exact this
        exact_mod_cast h2

/-- The decidable gate `npVar l < 25` agrees with `√(npVar l) < 5`
(the strategy's noise-floor test `std_pnl < 5`). -/
theorem stdLtFive_iff (l : List ℚ) :
    Real.sqrt ((npVar l : ℚ) : ℝ) < 5 ↔ npVar l < 25 := by
  have h5 : (0 : ℝ) < 5 := by norm_num
  rw [Real.sqrt_lt' h5]
  constructor
  · intro h
    have h2 : ((npVar l : ℚ) : ℝ) < 25 := by nlinarith
    exact_mod_cast h2
  · intro h
    have h2 : ((npVar l : ℚ) : ℝ) < 25 := by exact_mod_cast h
    nlinarith

/-! ## SortedPnlTable (src/sorted_pnl_table.py) -/

/-- Per-symbol statistics entry (`SortedPnlTable.TickerEntry`).  All float
fields are modelled as `ℚ`; timestamps are epoch seconds as `ℚ`. -/
structure TickerEntry where
  first_price : ℚ
  last_price : ℚ
  first_time : ℚ
  last_time : ℚ
  current_pnl : ℚ
  highest_pnl_so_far : ℚ
  highest_pnl_time : ℚ
  highest_pnl_price : ℚ
  max_drawdown : ℚ
  peak_pnl : ℚ
  peak_price : ℚ
  peak_time : ℚ
  trough_pnl : ℚ
  trough_price : ℚ
  trough_time : ℚ
  global_max_pnl : ℚ
  global_max_price : ℚ
  global_max_time : ℚ
deriving DecidableEq, Repr

/-- `TickerEntry.__init__(first_price, first_time)`. -/
def TickerEntry.init (first_price first_time : ℚ) : TickerEntry where
  first_price := first_price
  last_price := first_price
  first_time := first_time
  last_time := first_time
  current_pnl := 0
  highest_pnl_so_far := 0
  highest_pnl_time := first_time
  highest_pnl_price := first_price
  max_drawdown := 0
  peak_pnl := 0
  peak_price := first_price
  peak_time := first_time
  trough_pnl := 0
  trough_price := first_price
  trough_time := first_time
  global_max_pnl := 0
  global_max_price := first_price
  global_max_time := first_time

/-- `TickerEntry.update(price, timestamp)` (a zero `first_price`, which
would raise `ZeroDivisionError` in Python, gives `x / 0 = 0` in `ℚ`). -/
def TickerEntry.update (e : TickerEntry) (price timestamp : ℚ) : TickerEntry :=
  let last_price := price
  let last_time := timestamp
  let current_pnl := (last_price - e.first_price) / e.first_price * 100
  let e1 : TickerEntry :=
    { e with last_price := last_price, last_time := last_time, current_pnl := current_pnl }
  let e2 : TickerEntry :=
    if current_pnl > e1.global_max_pnl then
      { e1 with global_max_pnl := current_pnl, global_max_price := last_price,
                global_max_time := timestamp }
    else e1
  let e3 : TickerEntry :=
    if current_pnl > e2.highest_pnl_so_far then
      { e2 with highest_pnl_so_far := current_pnl, highest_pnl_price := last_price,
                highest_pnl_time := timestamp }
    else e2
  let drawdown := current_pnl - e3.highest_pnl_so_far
  if drawdown < e3.max_drawdown then
    { e3 with max_drawdown := drawdown, peak_pnl := e3.highest_pnl_so_far,
              peak_price := e3.highest_pnl_price, peak_time := e3.highest_pnl_time,
              trough_pnl := current_pnl, trough_price := last_price,
              trough_time := timestamp }
  else e3

/-- `TickerEntry.get_pnl()`. -/
def TickerEntry.get_pnl (e : TickerEntry) : ℚ :=
  e.current_pnl

/-- `SortedPnlTable`: `ticker_map` is an insertion-ordered dict; the
`sorted_tickers` snapshot stores the ranking order (the Python list stores
`(ticker, entry)` tuples, but the entry component aliases the live
`ticker_map` object, so only the ticker order is state). -/
structure SortedPnlTable where
  ticker_map : List (String × TickerEntry)
  sorted_tickers : List String
  updates_since_last_sort : ℕ
deriving DecidableEq, Repr

def SortedPnlTable.init : SortedPnlTable where
  ticker_map := []
  sorted_tickers := []
  updates_since_last_sort := 0

/-- `SortedPnlTable.update_ticker(ticker, price, timestamp)`. -/
def SortedPnlTable.update_ticker (t : SortedPnlTable) (ticker : String)
    (price timestamp : ℚ) : SortedPnlTable :=
  let map2 :=
    match pydictGet ticker t.ticker_map with
    | none => pydictInsert ticker (TickerEntry.init price timestamp) t.ticker_map
    | some e => pydictInsert ticker (e.update price timestamp) t.ticker_map
  { t with ticker_map := map2,
           updates_since_last_sort := t.updates_since_last_sort + 1 }

/-- Comparator of `resort`: descending `get_pnl`, stable (Python `sorted`
with `reverse=True` keeps insertion order between ties, as does
`List.mergeSort` when the comparator accepts ties). -/
def pnlDescLe (a b : String × TickerEntry) : Bool :=
  decide (b.2.get_pnl ≤ a.2.get_pnl)

/-- `SortedPnlTable.resort()`. -/
def SortedPnlTable.resort (t : SortedPnlTable) : SortedPnlTable :=
  { t with sorted_tickers := (t.ticker_map.mergeSort pnlDescLe).map Prod.fst,
           updates_since_last_sort := 0 }

/-- `SortedPnlTable.has_been_resorted(threshold=1000)`: combined
mutate-and-query, returns the flag together with the new table. -/
def SortedPnlTable.has_been_resorted (t : SortedPnlTable) (threshold : ℕ := 1000) :
    Bool × SortedPnlTable :=
  if t.updates_since_last_sort ≥ threshold then (true, t.resort)
  else (false, t)

/-- `SortedPnlTable.get_top_n(n)`: the first `n` entries of the last-built
snapshot; the entries are read live from `ticker_map` (aliasing in the
Python source). -/
def SortedPnlTable.get_top_n (t : SortedPnlTable) (n : ℕ := 20) :
    List (String × TickerEntry) :=
  (t.sorted_tickers.take n).filterMap
    (fun s => (pydictGet s t.ticker_map).map (fun e => (s, e)))

/-- `SortedPnlTable.get_last_price(ticker)`. -/
def SortedPnlTable.get_last_price (t : SortedPnlTable) (ticker : String) : Option ℚ :=
  (pydictGet ticker t.ticker_map).map TickerEntry.last_price

/-! ## Portfolio (src/portfolio.py) -/

/-- A trade dict.  The exit-side keys (`exit_price`, `exit_time`,
`realized_pnl`, `market_pnl_max`) are only present after a close, hence
`Option`.  `status` is the Python string "open" or "closed". -/
structure Trade where
  ticker : String
  quantity : ℤ
  entry_price : ℚ
  entry_time : ℚ
  last_price : ℚ
  unrealized_pnl : ℚ
  unrealized_pnl_max : ℚ
  status : String
  invested_amount : ℚ
  exit_price : Option ℚ
  exit_time : Option ℚ
  realized_pnl : Option ℚ
  market_pnl_max : Option ℚ
deriving DecidableEq, Repr

structure Portfolio where
  trades : List Trade
  cash : ℚ
  total_pnl : ℚ
deriving DecidableEq, Repr

/-- `Portfolio.__init__`: initial cash balance 1,000,000. -/
def Portfolio.init : Portfolio where
  trades := []
  cash := 1000000
  total_pnl := 0

/-- The per-trade update of `refresh_prices`: an open trade with an
available last price gets `last_price`, `unrealized_pnl` and
`unrealized_pnl_max` refreshed. -/
def refreshOne (table : SortedPnlTable) (tr : Trade) : Trade :=
  if tr.status = "open" then
    match table.get_last_price tr.ticker with
    | none => tr
    | some lp =>
        let upnl := (lp - tr.entry_price) * tr.quantity
        { tr with last_price := lp, unrealized_pnl := upnl,
                  unrealized_pnl_max := max tr.unrealized_pnl_max upnl }
  else tr

/-- `Portfolio.refresh_prices(table)`. -/
def Portfolio.refresh_prices (p : Portfolio) (table : SortedPnlTable) : Portfolio :=
  { p with trades := p.trades.map (refreshOne table) }

/-- The trade dict `open_trade` appends (entry price is the table's last
price, `invested_amount` its product with the quantity). -/
def openTradeMk (ticker : String) (quantity : ℤ) (last_price timestamp : ℚ) : Trade :=
  { ticker := ticker, quantity := quantity, entry_price := last_price,
    entry_time := timestamp, last_price := last_price,
    unrealized_pnl := 0, unrealized_pnl_max := 0, status := "open",
    invested_amount := last_price * quantity, exit_price := none, exit_time := none,
    realized_pnl := none, market_pnl_max := none }

/-- `Portfolio.open_trade(ticker, quantity, table, timestamp)`: returns the
Python boolean result together with the new state. -/
def Portfolio.open_trade (p : Portfolio) (ticker : String) (quantity : ℤ)
    (table : SortedPnlTable) (timestamp : ℚ) : Bool × Portfolio :=
  match table.get_last_price ticker with
  | none => (false, p)
  | some last_price =>
      let cost := last_price * quantity
      if cost > p.cash then (false, p)
      else
        let tr := openTradeMk ticker quantity last_price timestamp
        (true, { p with trades := p.trades ++ [tr], cash := p.cash - cost })

/-- The in-place mutation applied by `close_position` to each trade dict:
an open trade of `ticker` receives the exit fields and flips to
"closed". -/
def closeFlip (ticker : String) (last_price timestamp mpm : ℚ) (tr : Trade) : Trade :=
  if tr.ticker = ticker ∧ tr.status = "open" then
    { tr with exit_price := some last_price, exit_time := some timestamp,
              realized_pnl := some ((last_price - tr.entry_price) * tr.quantity),
              market_pnl_max := some mpm, status := "closed" }
  else tr

/-- The cash / `total_pnl` accumulation of `close_position`'s loop over
the trade list. -/
def closeCashFold (ticker : String) (last_price : ℚ) (acc : Portfolio) (tr : Trade) :
    Portfolio :=
  if tr.ticker = ticker ∧ tr.status = "open" then
    { acc with total_pnl := acc.total_pnl + (last_price - tr.entry_price) * tr.quantity,
               cash := acc.cash + last_price * tr.quantity }
  else acc

/-- `Portfolio.close_position(ticker, last_price, timestamp, table)`:
closes every open trade of `ticker`, returns `closed_any` with the new
state. -/
def Portfolio.close_position (p : Portfolio) (ticker : String) (last_price : ℚ)
    (timestamp : ℚ) (table : SortedPnlTable) : Bool × Portfolio :=
  let hits := p.trades.filter (fun tr => tr.ticker = ticker ∧ tr.status = "open")
  let closed_any := !hits.isEmpty
  let market_pnl_max :=
    match pydictGet ticker table.ticker_map with
    | some e => e.global_max_pnl
    | none => 0
  let p2 := p.trades.foldl (closeCashFold ticker last_price)
    { p with trades :=
        p.trades.map (closeFlip ticker last_price timestamp market_pnl_max) }
  (closed_any, p2)

/-- One step of `Portfolio.close_all`'s loop: visit the trade at index `i`
of the current trade list. -/
def Portfolio.closeAllStep (table : SortedPnlTable) (timestamp : ℚ)
    (p : Portfolio) (i : ℕ) : Portfolio :=
  match p.trades.get? i with
  | none => p
  | some tr =>
      if tr.status = "open" then
        match table.get_last_price tr.ticker with
        | none => p
        | some lp => (p.close_position tr.ticker lp timestamp table).2
      else p

/-- `Portfolio.close_all(table, timestamp)`: the Python loop iterates the
(index-stable) trade list while `close_position` flips statuses in place,
so it is the fold of `closeAllStep` over all indices. -/
def Portfolio.close_all (p : Portfolio) (table : SortedPnlTable) (timestamp : ℚ) :
    Portfolio :=
  (List.range p.trades.length).foldl (Portfolio.closeAllStep table timestamp) p

/-- `Portfolio.is_ticker_in_portfolio(ticker)`. -/
def Portfolio.is_ticker_in_portfolio (p : Portfolio) (ticker : String) : Bool :=
  p.trades.any (fun tr => tr.ticker = ticker ∧ tr.status = "open")

/-- `Portfolio.get_open_tickers()`: `sorted(list(set(...)))`. -/
def Portfolio.get_open_tickers (p : Portfolio) : List String :=
  (((p.trades.filter (fun tr => tr.status = "open")).map Trade.ticker).dedup).mergeSort
    (fun a b => decide (a ≤ b))

/-- `Portfolio.get_open_trade_best_pnl(table)`: resorts the table (a side
effect on the table!), then walks the fresh leaderboard and returns the
first ticker that has an open trade. -/
def Portfolio.get_open_trade_best_pnl (p : Portfolio) (table : SortedPnlTable) :
    Option String × SortedPnlTable :=
  let table2 := table.resort
  let open_tickers := p.get_open_tickers
  (table2.sorted_tickers.find? (fun s => s ∈ open_tickers), table2)

/-! ## AlgoEchappee (src/algo_echappee.py) -/

/-- The strategy object: parameters (as passed to `__init__`) together
with the per-day mutable state.  The `HH:MM` time-of-day strings are
modelled as already-split `(hour, minute)` pairs; `_parse_time` turns them
into decimal hours. -/
structure AlgoEchappee where
  take_profit_market_pnl : ℚ
  min_escape_time : ℚ
  trail_stop_market_pnl : ℚ
  stop_echappee_threshold : ℚ
  start_echappee_threshold : ℚ
  min_market_pnl : ℚ
  top_n_threshold : ℕ
  trade_interval_minutes : ℚ
  trade_value_eur : ℚ
  max_pnl_timeout_minutes : ℚ
  max_trades_per_day : ℕ
  trade_cutoff_hour : ℕ × ℕ
  trade_start_hour : ℕ × ℕ
  max_trade_duration_minutes : ℚ
  portfolio : Portfolio
  traded_tickers : List String
  escape_start_times : List (String × ℚ)
  top_n_start_times : List (String × ℚ)
  last_trade_time : Option ℚ
  trades_today : List (ℤ × ℕ)
deriving DecidableEq, Repr

/-- `_get_date(timestamp)`: the local calendar date after the fixed
`-6h` offset, as a day number (the `YYYY-MM-DD` string of the source is in
bijection with it; `datetime.fromtimestamp` is taken at UTC). -/
def pyGetDate (ts : ℚ) : ℤ :=
  ⌊(ts - 21600) / 86400⌋

/-- `_get_hour(timestamp)`: `dt.hour + dt.minute / 60` after the fixed
`-6h` offset. -/
def pyGetHour (ts : ℚ) : ℚ :=
  let s := ts - 21600 - 86400 * ((⌊(ts - 21600) / 86400⌋ : ℤ) : ℚ)
  ((⌊s / 3600⌋ : ℤ) : ℚ) + ((⌊(s - 3600 * ((⌊s / 3600⌋ : ℤ) : ℚ)) / 60⌋ : ℤ) : ℚ) / 60

/-- `_parse_time("HH:MM")` on the split pair. -/
def parseTimeHM (hm : ℕ × ℕ) : ℚ :=
  (hm.1 : ℚ) + (hm.2 : ℚ) / 60

/-- `AlgoEchappee._can_open_trade(timestamp)`. -/
def AlgoEchappee.can_open_trade (a : AlgoEchappee) (timestamp : ℚ) : Bool :=
  let current_date := pyGetDate timestamp
  let current_hour := pyGetHour timestamp
  let cutoff_hour := parseTimeHM a.trade_cutoff_hour
  let start_hour := parseTimeHM a.trade_start_hour
  if ¬ (start_hour ≤ current_hour ∧ current_hour < cutoff_hour) then false
  else if (pydictGet current_date a.trades_today).getD 0 ≥ a.max_trades_per_day then false
  else true

/-- The entry-threshold test `market_pnl > mean + start_mult * std_pnl`
where `std_pnl = np.std(pnls) if len(pnls) > 2 else 0`, decided over `ℚ`
through `gtMulSqrt`. -/
def echThresholdGt (pnl mean mult var : ℚ) (len : ℕ) : Bool :=
  if 2 < len then gtMulSqrt (pnl - mean) mult var else decide (mean < pnl)

/-- The exit-threshold test `market_pnl <= mean - stop_mult * std_pnl`
(same `std_pnl` convention), the negation of a `gtMulSqrt` test. -/
def stopSeuilLe (pnl mean m var : ℚ) (len : ℕ) : Bool :=
  if 2 < len then ! gtMulSqrt (pnl - mean) (-m) var else decide (pnl ≤ mean)

/-- The body of `calculate_echappees`' loop over the enumerated top-15
rows, threading `escape_start_times`, `top_n_start_times` and the
accumulated `echappees` list. -/
def calcEchGo (topN : ℕ) (minEsc mult mean var : ℚ) (len : ℕ) (ts : ℚ) :
    List (ℕ × String × ℚ) → List (String × ℚ) → List (String × ℚ) → List String →
    List (String × ℚ) × List (String × ℚ) × List String
  | [], esc, topn, acc => (esc, topn, acc)
  | (i, ticker, pnl) :: rest, esc, topn, acc =>
      let topn2 :=
        if i < topN then
          (if pydictMem ticker topn then topn else pydictInsert ticker ts topn)
        else pydictErase ticker topn
      if echThresholdGt pnl mean mult var len then
        if pydictMem ticker esc then
          let cond := decide (ts - (pydictGet ticker esc).getD 0 ≥ minEsc) &&
                      pydictMem ticker topn2 &&
                      decide (ts - (pydictGet ticker topn2).getD 0 ≥ minEsc)
          calcEchGo topN minEsc mult mean var len ts rest esc topn2
            (if cond then acc ++ [ticker] else acc)
        else
          calcEchGo topN minEsc mult mean var len ts rest
            (pydictInsert ticker ts esc) topn2 acc
      else
        calcEchGo topN minEsc mult mean var len ts rest
          (pydictErase ticker esc) topn2 acc

/-- `AlgoEchappee.calculate_echappees(table, current_timestamp)`: returns
the updated strategy state (the two timer dicts) and the `echappees`
list. -/
def AlgoEchappee.calculate_echappees (a : AlgoEchappee) (table : SortedPnlTable)
    (current_timestamp : ℚ) : AlgoEchappee × List String :=
  let top_15 := table.get_top_n 15
  let tickers_data := top_15.map (fun x => (x.1, x.2.get_pnl))
  if tickers_data.isEmpty then (a, [])
  else
    let pnls := tickers_data.map Prod.snd
    let mean_pnl := npMean pnls
    let len := pnls.length
    let var := npVar pnls
    if (if 2 < len then decide (var < 25) else true) then (a, [])
    else
      let res := calcEchGo a.top_n_threshold a.min_escape_time
        a.start_echappee_threshold mean_pnl var len current_timestamp
        tickers_data.enum a.escape_start_times a.top_n_start_times []
      ({ a with escape_start_times := res.1, top_n_start_times := res.2.1 }, res.2.2)

/-- One iteration of `main`'s first exit loop (take-profit, trailing stop,
max-PnL timeout, max holding duration) for one open ticker. -/
def AlgoEchappee.exitStep (a : AlgoEchappee) (table : SortedPnlTable) (ts : ℚ)
    (p : Portfolio) (ticker : String) : Portfolio :=
  match table.get_last_price ticker with
  | none => p
  | some last_price =>
      let market_pnl :=
        match pydictGet ticker table.ticker_map with
        | some e => e.get_pnl
        | none => 0
      let market_pnl_max :=
        match pydictGet ticker table.ticker_map with
        | some e => e.global_max_pnl
        | none => 0
      let global_max_time :=
        match pydictGet ticker table.ticker_map with
        | some e => e.global_max_time
        | none => ts
      if market_pnl ≥ a.take_profit_market_pnl then
        (p.close_position ticker last_price ts table).2
      else if market_pnl_max > 0 ∧ market_pnl_max - market_pnl ≥ a.trail_stop_market_pnl then
        (p.close_position ticker last_price ts table).2
      else if ts - global_max_time ≥ a.max_pnl_timeout_minutes * 60 then
        (p.close_position ticker last_price ts table).2
      else if p.trades.any (fun tr => tr.ticker = ticker ∧ tr.status = "open" ∧
          ts - tr.entry_time ≥ a.max_trade_duration_minutes * 60) then
        (p.close_position ticker last_price ts table).2
      else p

/-- The first block of `AlgoEchappee.main`: the per-open-ticker exit
rules, folded over the open-ticker list snapshot. -/
def AlgoEchappee.exitPhase (a : AlgoEchappee) (table : SortedPnlTable) (ts : ℚ) :
    AlgoEchappee :=
  { a with portfolio := (a.portfolio.get_open_tickers).foldl (a.exitStep table ts) a.portfolio }

/-- The second block of `AlgoEchappee.main`: the loss-of-breakout-status
exit (`market_pnl <= mean - std * stop_echappee_threshold` over the
top-15 dict). -/
def AlgoEchappee.stopPhase (a : AlgoEchappee) (table : SortedPnlTable) (ts : ℚ) :
    AlgoEchappee :=
  let top_15 := table.get_top_n 15
  let tickers_data := top_15.foldl (fun d x => pydictInsert x.1 x.2.get_pnl d) []
  let vals := tickers_data.map Prod.snd
  let mean_pnl := if tickers_data.isEmpty then 0 else npMean vals
  let len := tickers_data.length
  let var := npVar vals
  let p2 := (a.portfolio.get_open_tickers).foldl (fun p ticker =>
      let market_pnl :=
        match pydictGet ticker table.ticker_map with
        | some e => e.get_pnl
        | none => 0
      if stopSeuilLe market_pnl mean_pnl a.stop_echappee_threshold var len then
        match table.get_last_price ticker with
        | some lp => (p.close_position ticker lp ts table).2
        | none => p
      else p) a.portfolio
  { a with portfolio := p2 }

/-- One iteration of the breakout-entry loop over the `echappees` list. -/
def AlgoEchappee.openOne (a : AlgoEchappee) (table : SortedPnlTable) (ts : ℚ)
    (ticker : String) : AlgoEchappee :=
  if ticker ∉ a.traded_tickers ∧ ¬ a.portfolio.is_ticker_in_portfolio ticker then
    match table.get_last_price ticker with
    | some last_price =>
        if last_price > 0 then
          let market_pnl :=
            match pydictGet ticker table.ticker_map with
            | some e => e.get_pnl
            | none => 0
          let quantity := pyInt (a.trade_value_eur / last_price)
          if market_pnl > a.min_market_pnl ∧ quantity > 0 then
            let res := a.portfolio.open_trade ticker quantity table ts
            if res.1 then
              { a with portfolio := res.2,
                       traded_tickers := a.traded_tickers ++ [ticker],
                       last_trade_time := some ts,
                       trades_today := pydictInsert (pyGetDate ts)
                         ((pydictGet (pyGetDate ts) a.trades_today).getD 0 + 1)
                         a.trades_today }
            else { a with portfolio := res.2 }
          else a
        else a
    | none => a
  else a

/-- The third block of `AlgoEchappee.main`: breakout entries. -/
def AlgoEchappee.openPhase (a : AlgoEchappee) (table : SortedPnlTable) (ts : ℚ) :
    AlgoEchappee :=
  if a.can_open_trade ts then
    let res := a.calculate_echappees table ts
    res.2.foldl (fun st t => st.openOne table ts t) res.1
  else a

/-- The fourth block of `AlgoEchappee.main`: the periodic fallback trade.
`get_open_trade_best_pnl` resorts the table, so the (possibly) updated
table is returned as well. -/
def AlgoEchappee.periodicPhase (a : AlgoEchappee) (table : SortedPnlTable) (ts : ℚ) :
    AlgoEchappee × SortedPnlTable :=
  let interval_seconds := a.trade_interval_minutes * 60
  let fire :=
    match a.last_trade_time with
    | none => true
    | some t => decide (ts - t ≥ interval_seconds)
  if fire then
    if a.can_open_trade ts then
      let res := a.portfolio.get_open_trade_best_pnl table
      let table2 := res.2
      match res.1 with
      | some best_ticker =>
          match table2.get_last_price best_ticker with
          | some last_price =>
              if last_price > 0 then
                let quantity := pyInt (a.trade_value_eur / last_price)
                if quantity > 0 then
                  let opened := a.portfolio.open_trade best_ticker quantity table2 ts
                  if opened.1 then
                    ({ a with portfolio := opened.2,
                              traded_tickers := a.traded_tickers ++ [best_ticker],
                              last_trade_time := some ts,
                              trades_today := pydictInsert (pyGetDate ts)
                                ((pydictGet (pyGetDate ts) a.trades_today).getD 0 + 1)
                                a.trades_today }, table2)
                  else ({ a with portfolio := opened.2 }, table2)
                else (a, table2)
              else (a, table2)
          | none => (a, table2)
      | none => (a, table2)
    else (a, table)
  else (a, table)

/-- `AlgoEchappee.main(table, timestamp)`: one strategy evaluation cycle,
the sequential composition of the four blocks. -/
def AlgoEchappee.main (a : AlgoEchappee) (table : SortedPnlTable) (ts : ℚ) :
    AlgoEchappee × SortedPnlTable :=
  (((a.exitPhase table ts).stopPhase table ts).openPhase table ts).periodicPhase table ts

/-- `AlgoEchappee.close_all(table, timestamp)`. -/
def AlgoEchappee.close_all (a : AlgoEchappee) (table : SortedPnlTable) (ts : ℚ) :
    AlgoEchappee :=
  { a with portfolio := a.portfolio.close_all table ts }

/-! ## SingleFileSimulator / MultiFileSimulator
(single_file_simulator.py, src/multi_file_simulator.py) -/

/-- The parameter dict handed to `SingleFileSimulator.run_single_file`
(defaults are the `dict.get` fallbacks of the call site;
`max_trade_duration_minutes` is not passed and keeps the `__init__`
default 60). -/
structure StrategyParams where
  take_profit_market_pnl : ℚ
  min_escape_time : ℚ
  trail_stop_market_pnl : ℚ
  stop_echappee_threshold : ℚ
  start_echappee_threshold : ℚ
  min_market_pnl : ℚ
  top_n_threshold : ℕ
  trade_interval_minutes : ℚ
  trade_value_eur : ℚ
  max_pnl_timeout_minutes : ℚ := 60
  max_trades_per_day : ℕ := 3
  trade_cutoff_hour : ℕ × ℕ := (14, 0)
  trade_start_hour : ℕ × ℕ := (9, 30)
deriving DecidableEq, Repr

/-- `AlgoEchappee.__init__` as called by `run_single_file`. -/
def AlgoEchappee.init (p : StrategyParams) : AlgoEchappee where
  take_profit_market_pnl := p.take_profit_market_pnl
  min_escape_time := p.min_escape_time
  trail_stop_market_pnl := p.trail_stop_market_pnl
  stop_echappee_threshold := p.stop_echappee_threshold
  start_echappee_threshold := p.start_echappee_threshold
  min_market_pnl := p.min_market_pnl
  top_n_threshold := p.top_n_threshold
  trade_interval_minutes := p.trade_interval_minutes
  trade_value_eur := p.trade_value_eur
  max_pnl_timeout_minutes := p.max_pnl_timeout_minutes
  max_trades_per_day := p.max_trades_per_day
  trade_cutoff_hour := p.trade_cutoff_hour
  trade_start_hour := p.trade_start_hour
  max_trade_duration_minutes := 60
  portfolio := Portfolio.init
  traded_tickers := []
  escape_start_times := []
  top_n_start_times := []
  last_trade_time := none
  trades_today := []

/-- One day's tick stream: ordered `(timestamp, ticker, price)` records. -/
def DayData := List (ℚ × String × ℚ)

/-- ROI value: Python stores `float('inf')` when the invested capital is
zero, a finite float otherwise. -/
inductive RoiValue
  | finite (q : ℚ)
  | inf
deriving DecidableEq, Repr

/-- The per-day metrics dict returned by `run_single_file`. -/
structure FileMetrics where
  file_pnl : ℚ
  file_invested_capital : ℚ
  num_traded : ℕ
  roi : RoiValue
deriving DecidableEq, Repr

/-- One iteration of the tick loop of `run_single_file`, threading
`(table, algo, timestamp)`. -/
def SingleFileSimulator.tickStep (st : SortedPnlTable × AlgoEchappee × ℚ)
    (tick : ℚ × String × ℚ) : SortedPnlTable × AlgoEchappee × ℚ :=
  let table1 := st.1.update_ticker tick.2.1 tick.2.2 tick.1
  let algo1 := { st.2.1 with portfolio := st.2.1.portfolio.refresh_prices table1 }
  let rs := table1.has_been_resorted 1000
  if rs.1 then
    let mn := algo1.main rs.2 tick.1
    (mn.2, mn.1, tick.1)
  else (rs.2, algo1, tick.1)

/-- `SingleFileSimulator.run_single_file(data_file, params)`: a day file
that cannot be read (`not os.path.exists`) is the `none` case and yields
the zero metrics dict with `roi = 0.0`; otherwise the tick stream is
replayed (`timestamp` starts at `0.0` and keeps the last tick's value for
the final `close_all`). -/
def SingleFileSimulator.run_single_file (params : StrategyParams)
    (day : Option DayData) : FileMetrics :=
  match day with
  | none =>
      { file_pnl := 0, file_invested_capital := 0, num_traded := 0,
        roi := RoiValue.finite 0 }
  | some ticks =>
      let s := ticks.foldl SingleFileSimulator.tickStep
        (SortedPnlTable.init, AlgoEchappee.init params, (0 : ℚ))
      let p := s.2.1.portfolio.close_all s.1 s.2.2
      let file_pnl := p.total_pnl
      let closed := p.trades.filter (fun tr => tr.status = "closed")
      let num_traded := ((closed.map Trade.ticker).dedup).length
      let invested := (closed.map Trade.invested_amount).sum
      let roi :=
        if invested ≠ 0 then RoiValue.finite (file_pnl / invested * 100)
        else RoiValue.inf
      { file_pnl := file_pnl, file_invested_capital := invested,
        num_traded := num_traded, roi := roi }

/-- `MultiFileSimulator._simulate_single_file`: delegates to
`run_single_file` (the `except` fallback is unreachable in the
embedding, where the only failure mode — an unreadable file — is already
handled inside `run_single_file`). -/
def MultiFileSimulator.simulate_single_file (config : StrategyParams)
    (f : Option DayData) : FileMetrics :=
  SingleFileSimulator.run_single_file config f

/-- `MultiFileSimulator._compute_drawdown(daily_pnls)`. -/
def MultiFileSimulator.compute_drawdown (daily_pnls : List ℚ) : ℚ :=
  let equity := (daily_pnls.foldl
    (fun (acc : List ℚ × ℚ) pnl => (acc.1 ++ [acc.2 + pnl], acc.2 + pnl)) ([], 0)).1
  match equity with
  | [] => 0
  | h :: _ =>
      (equity.foldl (fun (s : ℚ × ℚ) v =>
        let peak := if v > s.1 then v else s.1
        let dd := peak - v
        (peak, if dd > s.2 then dd else s.2)) (h, 0)).2

/-- The aggregate dict returned by `MultiFileSimulator.run_all_files`. -/
structure BatchMetrics where
  total_pnl : ℚ
  total_trades : ℕ
  roi : ℚ
  win_rate : ℚ
  drawdown : ℚ
deriving DecidableEq, Repr

/-- `MultiFileSimulator.run_all_files(config)` (the sequential branch; the
process-pool branch computes the same per-day results independently). -/
def MultiFileSimulator.run_all_files (config : StrategyParams)
    (data_files : List (Option DayData)) : BatchMetrics :=
  let results := data_files.map (MultiFileSimulator.simulate_single_file config)
  let daily_pnls := results.map FileMetrics.file_pnl
  let daily_trades := results.map FileMetrics.num_traded
  let total_pnl := daily_pnls.sum
  let total_trades := daily_trades.sum
  let roi := if total_trades > 0 then total_pnl / (total_trades : ℚ) else 0
  let positive_days := (daily_pnls.filter (fun q => q > 0)).length
  let total_days := daily_pnls.length
  let win_rate := if total_days > 0 then (positive_days : ℚ) / (total_days : ℚ) * 100 else 0
  { total_pnl := total_pnl, total_trades := total_trades, roi := roi,
    win_rate := win_rate,
    drawdown := MultiFileSimulator.compute_drawdown daily_pnls }

/-! ## SimulationMemoire / SimulationRunner cache
(src/memoire_config.py, simulation_runner.py) -/

/-- A JSON-serializable parameter value: a number or an `HH:MM` string. -/
inductive JValue
  | num (q : ℚ)
  | str (s : String)
deriving DecidableEq, Repr

def serializeJValue : JValue → String
  | .num q => toString q.num ++ "/" ++ toString q.den
  | .str s => "s:" ++ s

/-- Serialization of an ordered parameter map (the JSON text emitted by
`json.dumps` for a dict in that key order). -/
def serializeParams (l : List (String × JValue)) : String :=
  String.intercalate "," (l.map (fun kv => kv.1 ++ "=" ++ serializeJValue kv.2))

/-- Key order used by `json.dumps(params, sort_keys=True)`. -/
def keyLe (a b : String × JValue) : Bool :=
  decide (a.1 ≤ b.1)

/-- `SimulationMemoire._make_key(params)`: sorted-by-name
serialization. -/
def SimulationMemoire.make_key (params : List (String × JValue)) : String :=
  serializeParams (params.mergeSort keyLe)

/-- The metrics dict stored per cache entry by `add_result`. -/
structure SimMetrics where
  total_pnl : ℚ
  total_invested_capital : ℚ
  total_roi : ℚ
  daily_pnl_std : ℚ
  positive_or_zero_pnl_days : ℕ
  negative_pnl_days : ℕ
deriving DecidableEq, Repr

/-- `SimulationMemoire.get_pnl`'s default metrics dict. -/
def SimMetrics.zero : SimMetrics where
  total_pnl := 0
  total_invested_capital := 0
  total_roi := 0
  daily_pnl_std := 0
  positive_or_zero_pnl_days := 0
  negative_pnl_days := 0

/-- `SimulationMemoire.has_been_tested(params)`. -/
def SimulationMemoire.has_been_tested (memoire : List (String × SimMetrics))
    (params : List (String × JValue)) : Bool :=
  pydictMem (SimulationMemoire.make_key params) memoire

/-- `SimulationMemoire.get_pnl(params)`. -/
def SimulationMemoire.get_pnl (memoire : List (String × SimMetrics))
    (params : List (String × JValue)) : SimMetrics :=
  (pydictGet (SimulationMemoire.make_key params) memoire).getD SimMetrics.zero

/-- `SimulationMemoire.add_result(params, metrics)` (the JSON-file
persistence is outside the embedding). -/
def SimulationMemoire.add_result (memoire : List (String × SimMetrics))
    (params : List (String × JValue)) (metrics : SimMetrics) :
    List (String × SimMetrics) :=
  pydictInsert (SimulationMemoire.make_key params) metrics memoire

/-- `SimulationRunner.run_simulation_display(params, iteration)`: on a
cache hit returns the stored `total_pnl` without simulating; on a miss
runs `run_simulation` (passed in as `sim`, exactly the dependency the
method calls on `self`) and stores the result.  The returned flag records
whether a simulation was run by this call. -/
def SimulationRunner.run_simulation_display
    (sim : List (String × JValue) → SimMetrics)
    (memoire : List (String × SimMetrics)) (params : List (String × JValue)) :
    ℚ × List (String × SimMetrics) × Bool :=
  if SimulationMemoire.has_been_tested memoire params then
    ((SimulationMemoire.get_pnl memoire params).total_pnl, memoire, false)
  else
    let metrics := sim params
    (metrics.total_pnl, SimulationMemoire.add_result memoire params metrics, true)

/-! ## Claim C7: monotonicity of `global_max_pnl` -/

theorem update_global_max_eq (e : TickerEntry) (price ts : ℚ) :
    (e.update price ts).global_max_pnl =
      max e.global_max_pnl ((price - e.first_price) / e.first_price * 100) := by
  unfold TickerEntry.update
  by_cases h : (price - e.first_price) / e.first_price * 100 > e.global_max_pnl
  · simp only [h, if_pos]
    split <;> split <;> simp [max_eq_right h.le]
  · simp only [h, if_neg, not_false_iff]
    push_neg at h
    split <;> split <;> simp [max_eq_left h]

/-- Claim C7: for every `TickerEntry` and every sequence of
`update(price, timestamp)` calls, `global_max_pnl` never decreases:
after each single update, and after any run of updates, it is `≥` its
previous value. -/
theorem C7_global_max_pnl_monotone (e : TickerEntry) (price ts : ℚ)
    (upds : List (ℚ × ℚ)) :
    e.global_max_pnl ≤ (e.update price ts).global_max_pnl ∧
    e.global_max_pnl ≤
      (upds.foldl (fun acc u => acc.update u.1 u.2) e).global_max_pnl := by
  constructor
  · rw [update_global_max_eq]
    exact le_max_left _ _
  · induction upds generalizing e with
    | nil => exact le_refl _
    | cons u rest ih =>
        calc e.global_max_pnl ≤ (e.update u.1 u.2).global_max_pnl := by
              rw [update_global_max_eq]; exact le_max_left _ _
          _ ≤ _ := ih (e.update u.1 u.2)

/-! ## Claim C5: insufficient funds leaves the ledger unchanged -/

/-- Claim C5: an `open_trade` whose cost `price * quantity` exceeds the
available cash reports failure (`False` in Python) and leaves the
portfolio — cash and trade list — exactly as before. -/
theorem C5_insufficient_funds_no_change (p : Portfolio) (ticker : String)
    (quantity : ℤ) (table : SortedPnlTable) (ts : ℚ) (price : ℚ)
    (hprice : table.get_last_price ticker = some price)
    (hcost : price * quantity > p.cash) :
    p.open_trade ticker quantity table ts = (false, p) := by
  unfold Portfolio.open_trade
  rw [hprice]
  simp only [hcost, if_pos]

def c5Entry : TickerEntry := TickerEntry.init 50 0

def c5Table : SortedPnlTable :=
  { ticker_map := [("AAA", c5Entry)], sorted_tickers := ["AAA"],
    updates_since_last_sort := 1 }

theorem C5_witness :
    c5Table.get_last_price "AAA" = some 50 ∧
    (50 : ℚ) * 30000 > Portfolio.init.cash ∧
    Portfolio.init.open_trade "AAA" 30000 c5Table 7 = (false, Portfolio.init) :=
  ⟨rfl, by norm_num [Portfolio.init],
    C5_insufficient_funds_no_change Portfolio.init "AAA" 30000 c5Table 7 50
      rfl (by norm_num [Portfolio.init])⟩

/-! ## Claim C2: the ledger conservation law -/

/-- Sum of `invested_amount` over the open trades of a trade list. -/
def invSum (l : List Trade) : ℚ :=
  (l.map (fun tr => if tr.status = "open" then tr.invested_amount else 0)).sum

/-- Sum of `realized_pnl` over the closed trades of a trade list. -/
def realSum (l : List Trade) : ℚ :=
  (l.map (fun tr => if tr.status = "closed" then tr.realized_pnl.getD 0 else 0)).sum

/-- Cash credited by a `close_position(ticker, price, ...)` call:
`price * quantity` summed over the open trades of `ticker`. -/
def hitSum (ticker : String) (price : ℚ) (l : List Trade) : ℚ :=
  (l.map (fun tr => if tr.ticker = ticker ∧ tr.status = "open"
    then price * (tr.quantity : ℚ) else 0)).sum

/-- The quantity the specification asserts to be conserved:
`cash + Σ invested_amount (open trades) + Σ realized_pnl (closed
trades)`. -/
def specLedgerValue (p : Portfolio) : ℚ :=
  p.cash + invSum p.trades + realSum p.trades

/-- The quantity that actually is conserved by the ledger:
`cash + Σ invested_amount (open trades) - Σ realized_pnl (closed
trades)`. -/
def ledgerEquity (p : Portfolio) : ℚ :=
  p.cash + invSum p.trades - realSum p.trades

/-- One ledger operation, carrying the arguments a caller would pass. -/
inductive LedgerOp
  | openT (ticker : String) (quantity : ℤ) (table : SortedPnlTable) (ts : ℚ)
  | closeT (ticker : String) (price : ℚ) (ts : ℚ) (table : SortedPnlTable)
  | closeAllT (table : SortedPnlTable) (ts : ℚ)
  | refreshT (table : SortedPnlTable)

/-- Apply one ledger operation (dropping the boolean results, which carry
no state). -/
def LedgerOp.apply (p : Portfolio) : LedgerOp → Portfolio
  | .openT t q tb ts => (p.open_trade t q tb ts).2
  | .closeT t pr ts tb => (p.close_position t pr ts tb).2
  | .closeAllT tb ts => p.close_all tb ts
  | .refreshT tb => p.refresh_prices tb

/-- Run a sequence of ledger operations. -/
def runLedgerOps (p : Portfolio) (ops : List LedgerOp) : Portfolio :=
  ops.foldl LedgerOp.apply p

/-- Every trade in the ledger satisfies
`invested_amount = entry_price * quantity` (true of every trade
`open_trade` ever creates). -/
def investedConsistent (p : Portfolio) : Prop :=
  ∀ tr ∈ p.trades, tr.invested_amount = tr.entry_price * tr.quantity

theorem foldlPreserve {σ α : Type} (P : σ → Prop) (f : σ → α → σ)
    (hf : ∀ s a, P s → P (f s a)) :
    ∀ (l : List α) (s : σ), P s → P (l.foldl f s) := by
  intro l
  induction l with
  | nil => intro s hs; exact hs
  | cons a rest ih => intro s hs; exact ih _ (hf s a hs)

theorem closeCashFold_trades (t : String) (pr : ℚ) :
    ∀ (l : List Trade) (acc : Portfolio),
      (l.foldl (closeCashFold t pr) acc).trades = acc.trades := by
  intro l
  induction l with
  | nil => intro acc; rfl
  | cons tr rest ih =>
      intro acc
      rw [List.foldl_cons, ih]
      unfold closeCashFold
      by_cases hc : tr.ticker = t ∧ tr.status = "open" <;> simp [hc]

theorem closeCashFold_cash (t : String) (pr : ℚ) :
    ∀ (l : List Trade) (acc : Portfolio),
      (l.foldl (closeCashFold t pr) acc).cash = acc.cash + hitSum t pr l := by
  intro l
  induction l with
  | nil => intro acc; simp [hitSum]
  | cons tr rest ih =>
      intro acc
      rw [List.foldl_cons, ih]
      unfold closeCashFold hitSum
      by_cases hc : tr.ticker = t ∧ tr.status = "open" <;>
        simp [hc, hitSum] <;> ring

theorem close_position_trades (p : Portfolio) (t : String) (pr ts : ℚ)
    (tb : SortedPnlTable) :
    (p.close_position t pr ts tb).2.trades =
      p.trades.map (closeFlip t pr ts
        (match pydictGet t tb.ticker_map with
         | some e => e.global_max_pnl
         | none => 0)) := by
  unfold Portfolio.close_position
  rw [closeCashFold_trades]

theorem close_position_cash (p : Portfolio) (t : String) (pr ts : ℚ)
    (tb : SortedPnlTable) :
    (p.close_position t pr ts tb).2.cash = p.cash + hitSum t pr p.trades := by
  unfold Portfolio.close_position
  rw [closeCashFold_cash]

theorem sumMapSub {α : Type} (a b : α → ℚ) :
    ∀ l : List α, (l.map (fun x => a x - b x)).sum = (l.map a).sum - (l.map b).sum := by
  intro l
  induction l with
  | nil => simp
  | cons x rest ih => simp [ih]; ring

theorem sumCongr {α : Type} (u w : α → ℚ) :
    ∀ l : List α, (∀ x ∈ l, u x = w x) → (l.map u).sum = (l.map w).sum := by
  intro l
  induction l with
  | nil => intro _; simp
  | cons x rest ih =>
      intro h
      simp only [List.map_cons, List.sum_cons]
      rw [h x (List.mem_cons_self _ _), ih (fun y hy => h y (List.mem_cons_of_mem _ hy))]

theorem closeFlip_elem (t : String) (pr ts mv : ℚ) (tr : Trade)
    (h : tr.invested_amount = tr.entry_price * tr.quantity) :
    (if (closeFlip t pr ts mv tr).status = "open"
      then (closeFlip t pr ts mv tr).invested_amount else 0) -
    (if (closeFlip t pr ts mv tr).status = "closed"
      then (closeFlip t pr ts mv tr).realized_pnl.getD 0 else 0) =
    (if tr.status = "open" then tr.invested_amount else 0) -
    (if tr.status = "closed" then tr.realized_pnl.getD 0 else 0) -
    (if tr.ticker = t ∧ tr.status = "open" then pr * (tr.quantity : ℚ) else 0) := by
  unfold closeFlip
  by_cases hc : tr.ticker = t ∧ tr.status = "open"
  · have hop : tr.status = "open" := hc.2
    have h1 : ¬ (("closed" : String) = "open") := by decide
    have h2 : ¬ (tr.status = "closed") := by
      rw [hop]; decide
    rw [if_pos hc]
    dsimp only
    rw [if_neg h1, if_pos rfl, if_pos hop, if_neg h2, if_pos hc, Option.getD_some, h]
    ring
  · simp only [if_neg hc]
    ring

theorem invSum_realSum_flip (t : String) (pr ts mv : ℚ) (l : List Trade)
    (h : ∀ tr ∈ l, tr.invested_amount = tr.entry_price * tr.quantity) :
    invSum (l.map (closeFlip t pr ts mv)) - realSum (l.map (closeFlip t pr ts mv)) =
      invSum l - realSum l - hitSum t pr l := by
  unfold invSum realSum hitSum
  rw [List.map_map, List.map_map, ← sumMapSub]
  rw [sumCongr _ _ l (fun tr htr => by
    have := closeFlip_elem t pr ts mv tr (h tr htr)
    simpa using this)]
  rw [sumMapSub, sumMapSub]

theorem invSum_append (l1 l2 : List Trade) : invSum (l1 ++ l2) = invSum l1 + invSum l2 := by
  unfold invSum
  rw [List.map_append, List.sum_append]

theorem realSum_append (l1 l2 : List Trade) : realSum (l1 ++ l2) = realSum l1 + realSum l2 := by
  unfold realSum
  rw [List.map_append, List.sum_append]

theorem equity_close_position (p : Portfolio) (t : String) (pr ts : ℚ)
    (tb : SortedPnlTable) (h : investedConsistent p) :
    ledgerEquity (p.close_position t pr ts tb).2 = ledgerEquity p := by
  unfold ledgerEquity
  rw [close_position_cash, close_position_trades]
  have key := invSum_realSum_flip t pr ts
    (match pydictGet t tb.ticker_map with
     | some e => e.global_max_pnl
     | none => 0) p.trades h
  linarith

theorem consistent_close_position (p : Portfolio) (t : String) (pr ts : ℚ)
    (tb : SortedPnlTable) (h : investedConsistent p) :
    investedConsistent (p.close_position t pr ts tb).2 := by
  intro tr htr
  rw [close_position_trades] at htr
  obtain ⟨x, hx, rfl⟩ := List.mem_map.mp htr
  unfold closeFlip
  by_cases hc : x.ticker = t ∧ x.status = "open"
  · rw [if_pos hc]
    exact h x hx
  · rw [if_neg hc]
    exact h x hx

theorem open_trade_cases (p : Portfolio) (t : String) (q : ℤ) (tb : SortedPnlTable)
    (ts : ℚ) :
    p.open_trade t q tb ts = (false, p) ∨
    ∃ lp, tb.get_last_price t = some lp ∧ ¬ (lp * q > p.cash) ∧
      p.open_trade t q tb ts =
        (true, { p with trades := p.trades ++ [openTradeMk t q lp ts],
                        cash := p.cash - lp * q }) := by
  unfold Portfolio.open_trade
  cases hlp : tb.get_last_price t with
  | none => left; rfl
  | some lp =>
      by_cases hc : lp * (q : ℚ) > p.cash
      · left
        simp [hc]
      · right
        exact ⟨lp, rfl, hc, by simp [hc]⟩

theorem equity_open_trade (p : Portfolio) (t : String) (q : ℤ) (tb : SortedPnlTable)
    (ts : ℚ) : ledgerEquity (p.open_trade t q tb ts).2 = ledgerEquity p := by
  rcases open_trade_cases p t q tb ts with h | ⟨lp, hlp, hc, h⟩
  · rw [h]
  · rw [h]
    have h1 : invSum [openTradeMk t q lp ts] = lp * q := by
      unfold invSum openTradeMk
      simp
    have h2 : realSum [openTradeMk t q lp ts] = 0 := by
      unfold realSum openTradeMk
      have hne : ¬ (("open" : String) = "closed") := by decide
      simp [hne]
    unfold ledgerEquity
    dsimp only
    rw [invSum_append, realSum_append, h1, h2]
    ring

theorem consistent_open_trade (p : Portfolio) (t : String) (q : ℤ)
    (tb : SortedPnlTable) (ts : ℚ) (h : investedConsistent p) :
    investedConsistent (p.open_trade t q tb ts).2 := by
  rcases open_trade_cases p t q tb ts with h1 | ⟨lp, hlp, hc, h1⟩
  · rw [h1]
    exact h
  · rw [h1]
    intro tr htr
    dsimp only at htr
    rcases List.mem_append.mp htr with hin | hin
    · exact h tr hin
    · rw [List.mem_singleton.mp hin]
      rfl

theorem refreshOne_keep (tb : SortedPnlTable) (tr : Trade) :
    (refreshOne tb tr).status = tr.status ∧
    (refreshOne tb tr).invested_amount = tr.invested_amount ∧
    (refreshOne tb tr).realized_pnl = tr.realized_pnl ∧
    (refreshOne tb tr).entry_price = tr.entry_price ∧
    (refreshOne tb tr).quantity = tr.quantity ∧
    (refreshOne tb tr).ticker = tr.ticker := by
  unfold refreshOne
  by_cases hs : tr.status = "open"
  · rw [if_pos hs]
    cases h : tb.get_last_price tr.ticker with
    | none => exact ⟨rfl, rfl, rfl, rfl, rfl, rfl⟩
    | some lp => exact ⟨rfl, rfl, rfl, rfl, rfl, rfl⟩
  · rw [if_neg hs]
    exact ⟨rfl, rfl, rfl, rfl, rfl, rfl⟩

theorem equity_refresh (p : Portfolio) (tb : SortedPnlTable) :
    ledgerEquity (p.refresh_prices tb) = ledgerEquity p := by
  unfold ledgerEquity Portfolio.refresh_prices
  dsimp only
  have hinv : invSum (p.trades.map (refreshOne tb)) = invSum p.trades := by
    unfold invSum
    rw [List.map_map]
    apply sumCongr
    intro x _
    show (if (refreshOne tb x).status = "open" then (refreshOne tb x).invested_amount else 0) =
      (if x.status = "open" then x.invested_amount else 0)
    rw [(refreshOne_keep tb x).1, (refreshOne_keep tb x).2.1]
  have hreal : realSum (p.trades.map (refreshOne tb)) = realSum p.trades := by
    unfold realSum
    rw [List.map_map]
    apply sumCongr
    intro x _
    show (if (refreshOne tb x).status = "closed" then (refreshOne tb x).realized_pnl.getD 0 else 0) =
      (if x.status = "closed" then x.realized_pnl.getD 0 else 0)
    rw [(refreshOne_keep tb x).1, (refreshOne_keep tb x).2.2.1]
  rw [hinv, hreal]

theorem consistent_refresh (p : Portfolio) (tb : SortedPnlTable)
    (h : investedConsistent p) : investedConsistent (p.refresh_prices tb) := by
  intro tr htr
  unfold Portfolio.refresh_prices at htr
  dsimp only at htr
  obtain ⟨x, hx, rfl⟩ := List.mem_map.mp htr
  have k := refreshOne_keep tb x
  rw [k.2.1, k.2.2.2.1, k.2.2.2.2.1]
  exact h x hx

theorem closeAllStep_pres (tb : SortedPnlTable) (ts : ℚ) (E : ℚ) (p : Portfolio)
    (i : ℕ) (h : investedConsistent p ∧ ledgerEquity p = E) :
    investedConsistent (Portfolio.closeAllStep tb ts p i) ∧
    ledgerEquity (Portfolio.closeAllStep tb ts p i) = E := by
  unfold Portfolio.closeAllStep
  cases hg : p.trades.get? i with
  | none => exact h
  | some tr =>
      dsimp only
      by_cases hs : tr.status = "open"
      · rw [if_pos hs]
        cases hlp : tb.get_last_price tr.ticker with
        | none => exact h
        | some lp =>
            refine ⟨consistent_close_position _ _ _ _ _ h.1, ?_⟩
            rw [equity_close_position _ _ _ _ _ h.1]
            exact h.2
      · rw [if_neg hs]
        exact h

theorem equity_close_all (p : Portfolio) (tb : SortedPnlTable) (ts : ℚ)
    (h : investedConsistent p) :
    investedConsistent (p.close_all tb ts) ∧
    ledgerEquity (p.close_all tb ts) = ledgerEquity p := by
  unfold Portfolio.close_all
  exact foldlPreserve (fun q => investedConsistent q ∧ ledgerEquity q = ledgerEquity p)
    (Portfolio.closeAllStep tb ts)
    (fun s a hs => closeAllStep_pres tb ts (ledgerEquity p) s a hs)
    (List.range p.trades.length) p ⟨h, rfl⟩

theorem ledger_step (p : Portfolio) (op : LedgerOp) (h : investedConsistent p) :
    investedConsistent (op.apply p) ∧ ledgerEquity (op.apply p) = ledgerEquity p := by
  cases op with
  | openT t q tb ts =>
      exact ⟨consistent_open_trade p t q tb ts h, equity_open_trade p t q tb ts⟩
  | closeT t pr ts tb =>
      exact ⟨consistent_close_position p t pr ts tb h, equity_close_position p t pr ts tb h⟩
  | closeAllT tb ts => exact equity_close_all p tb ts h
  | refreshT tb => exact ⟨consistent_refresh p tb h, equity_refresh p tb⟩

def c2Entry : TickerEntry := TickerEntry.init 10 0

def c2Table : SortedPnlTable :=
  { ticker_map := [("A", c2Entry)], sorted_tickers := ["A"],
    updates_since_last_sort := 1 }

def c2Ops : List LedgerOp :=
  [LedgerOp.openT "A" 1 c2Table 0, LedgerOp.closeT "A" 20 1 c2Table]

/-- Claim C2 counterexample: the quantity
`cash + Σ invested_amount (open) + Σ realized_pnl (closed)` is not
conserved.  Opening one trade of quantity 1 at price 10 and closing it at
price 20 moves the quantity from 1,000,000 to 1,000,020 (the realized
profit is double-counted: once inside `cash`, once in the `realized_pnl`
term). -/
theorem C2_counterexample :
    specLedgerValue (runLedgerOps Portfolio.init c2Ops) ≠ specLedgerValue Portfolio.init := by
  have h1 : specLedgerValue Portfolio.init = 1000000 := by
    unfold specLedgerValue invSum realSum Portfolio.init
    norm_num
  have h2 : specLedgerValue (runLedgerOps Portfolio.init c2Ops) = 1000020 := by
    have hso : ¬ (("closed" : String) = "open") := by decide
    have hos : ¬ (("open" : String) = "closed") := by decide
    norm_num [hso, hos, runLedgerOps, c2Ops, LedgerOp.apply, Portfolio.open_trade,
      Portfolio.close_position, openTradeMk, closeFlip, closeCashFold,
      SortedPnlTable.get_last_price, pydictGet, c2Table, c2Entry, TickerEntry.init,
      Portfolio.init, specLedgerValue, invSum, realSum, hitSum]
  rw [h1, h2]
  norm_num

/-- Claim C2 (amended): for every sequence of ledger operations starting
from the initial cash balance, the conserved quantity is
`cash + Σ invested_amount (open trades) - Σ realized_pnl (closed
trades)`: it always equals the initial 1,000,000 (equivalently,
`cash + Σ invested_amount (open)` equals the initial balance plus the
accumulated realized PnL).  Opening and closing only move value between
cash and trades up to booking the realized profit once. -/
theorem C2_ledger_conservation (ops : List LedgerOp) :
    ledgerEquity (runLedgerOps Portfolio.init ops) = 1000000 := by
  have base : investedConsistent Portfolio.init := by
    intro tr htr
    simp [Portfolio.init] at htr
  have e0 : ledgerEquity Portfolio.init = 1000000 := by
    unfold ledgerEquity invSum realSum Portfolio.init
    norm_num
  unfold runLedgerOps
  have main := foldlPreserve
    (fun q => investedConsistent q ∧ ledgerEquity q = 1000000) LedgerOp.apply
    (fun s a hs => by
      obtain ⟨hc, he⟩ := hs
      obtain ⟨hc2, he2⟩ := ledger_step s a hc
      exact ⟨hc2, by rw [he2]; exact he⟩)
    ops Portfolio.init ⟨base, e0⟩
  exact main.2

/-! ## Claim C10: cash never goes negative -/

/-- All last prices recorded in a table are non-negative ("every price
passed to the ledger is non-negative" for the table-driven calls). -/
def tableNonneg (tb : SortedPnlTable) : Prop :=
  ∀ s e, pydictGet s tb.ticker_map = some e → 0 ≤ e.last_price

/-- The claim's hypothesis on one ledger operation: non-negative
quantities and prices. -/
def LedgerOp.nonneg : LedgerOp → Prop
  | .openT _ q _ _ => 0 ≤ q
  | .closeT _ pr _ _ => 0 ≤ pr
  | .closeAllT tb _ => tableNonneg tb
  | .refreshT _ => True

theorem foldlPreserveMem {σ α : Type} (P : σ → Prop) (Q : α → Prop) (f : σ → α → σ)
    (hf : ∀ s a, Q a → P s → P (f s a)) :
    ∀ (l : List α) (s : σ), (∀ a ∈ l, Q a) → P s → P (l.foldl f s) := by
  intro l
  induction l with
  | nil => intro s _ hs; exact hs
  | cons a rest ih =>
      intro s hq hs
      exact ih _ (fun x hx => hq x (List.mem_cons_of_mem _ hx))
        (hf s a (hq a (List.mem_cons_self _ _)) hs)

theorem hitSum_nonneg (t : String) (pr : ℚ) (l : List Trade) (hpr : 0 ≤ pr)
    (hq : ∀ tr ∈ l, 0 ≤ tr.quantity) : 0 ≤ hitSum t pr l := by
  unfold hitSum
  apply List.sum_nonneg
  intro x hx
  obtain ⟨tr, htr, rfl⟩ := List.mem_map.mp hx
  by_cases hc : tr.ticker = t ∧ tr.status = "open"
  · rw [if_pos hc]
    have : (0 : ℚ) ≤ (tr.quantity : ℚ) := by exact_mod_cast hq tr htr
    exact mul_nonneg hpr this
  · rw [if_neg hc]

theorem closeFlip_quantity (t : String) (pr ts mv : ℚ) (tr : Trade) :
    (closeFlip t pr ts mv tr).quantity = tr.quantity := by
  unfold closeFlip
  by_cases hc : tr.ticker = t ∧ tr.status = "open"
  · rw [if_pos hc]
  · rw [if_neg hc]

/-- The inductive state property for C10: non-negative cash and only
non-negative quantities in the book. -/
def cashQtyNonneg (p : Portfolio) : Prop :=
  0 ≤ p.cash ∧ ∀ tr ∈ p.trades, 0 ≤ tr.quantity

theorem close_position_nonneg (p : Portfolio) (t : String) (pr ts : ℚ)
    (tb : SortedPnlTable) (hpr : 0 ≤ pr) (h : cashQtyNonneg p) :
    cashQtyNonneg (p.close_position t pr ts tb).2 := by
  constructor
  · rw [close_position_cash]
    have := hitSum_nonneg t pr p.trades hpr h.2
    linarith [h.1]
  · intro tr htr
    rw [close_position_trades] at htr
    obtain ⟨x, hx, rfl⟩ := List.mem_map.mp htr
    rw [closeFlip_quantity]
    exact h.2 x hx

theorem get_last_price_eq (tb : SortedPnlTable) (s : String) (lp : ℚ)
    (h : tb.get_last_price s = some lp) :
    ∃ e, pydictGet s tb.ticker_map = some e ∧ e.last_price = lp := by
  unfold SortedPnlTable.get_last_price at h
  cases hg : pydictGet s tb.ticker_map with
  | none => rw [hg] at h; simp at h
  | some e => rw [hg] at h; simp at h; exact ⟨e, rfl, h⟩

theorem closeAllStep_nonneg (tb : SortedPnlTable) (ts : ℚ) (htb : tableNonneg tb)
    (p : Portfolio) (i : ℕ) (h : cashQtyNonneg p) :
    cashQtyNonneg (Portfolio.closeAllStep tb ts p i) := by
  unfold Portfolio.closeAllStep
  cases hg : p.trades.get? i with
  | none => exact h
  | some tr =>
      dsimp only
      by_cases hs : tr.status = "open"
      · rw [if_pos hs]
        cases hlp : tb.get_last_price tr.ticker with
        | none => exact h
        | some lp =>
            obtain ⟨e, he, hel⟩ := get_last_price_eq tb tr.ticker lp hlp
            exact close_position_nonneg p tr.ticker lp ts tb (hel ▸ htb _ e he) h
      · rw [if_neg hs]
        exact h

theorem ledger_step_nonneg (p : Portfolio) (op : LedgerOp) (hop : op.nonneg)
    (h : cashQtyNonneg p) : cashQtyNonneg (op.apply p) := by
  cases op with
  | openT t q tb ts =>
      rcases open_trade_cases p t q tb ts with h1 | ⟨lp, hlp, hc, h1⟩
      · show cashQtyNonneg (p.open_trade t q tb ts).2
        rw [h1]
        exact h
      · show cashQtyNonneg (p.open_trade t q tb ts).2
        rw [h1]
        constructor
        · dsimp only
          push_neg at hc
          linarith [hc]
        · intro tr htr
          dsimp only at htr
          rcases List.mem_append.mp htr with hin | hin
          · exact h.2 tr hin
          · rw [List.mem_singleton.mp hin]
            exact hop
  | closeT t pr ts tb => exact close_position_nonneg p t pr ts tb hop h
  | closeAllT tb ts =>
      show cashQtyNonneg (p.close_all tb ts)
      unfold Portfolio.close_all
      exact foldlPreserve cashQtyNonneg (Portfolio.closeAllStep tb ts)
        (fun s a hs => closeAllStep_nonneg tb ts hop s a hs)
        (List.range p.trades.length) p h
  | refreshT tb =>
      show cashQtyNonneg (p.refresh_prices tb)
      constructor
      · show (0 : ℚ) ≤ ({ p with trades := p.trades.map (refreshOne tb) } : Portfolio).cash
        exact h.1
      · intro tr htr
        unfold Portfolio.refresh_prices at htr
        dsimp only at htr
        obtain ⟨x, hx, rfl⟩ := List.mem_map.mp htr
        rw [(refreshOne_keep tb x).2.2.2.2.1]
        exact h.2 x hx

/-- Claim C10: starting from the initial 1,000,000 balance, under
non-negative prices and quantities, every sequence of `open_trade`,
`refresh_prices`, `close_position` and `close_all` calls keeps
`cash ≥ 0`: an open only proceeds when its cost is at most the current
cash, and a close only adds a non-negative amount. -/
theorem C10_cash_never_negative (ops : List LedgerOp)
    (h : ∀ op ∈ ops, op.nonneg) :
    0 ≤ (runLedgerOps Portfolio.init ops).cash := by
  have base : cashQtyNonneg Portfolio.init := by
    constructor
    · norm_num [Portfolio.init]
    · intro tr htr
      simp [Portfolio.init] at htr
  unfold runLedgerOps
  exact (foldlPreserveMem cashQtyNonneg LedgerOp.nonneg LedgerOp.apply
    (fun s a ha hs => ledger_step_nonneg s a ha hs) ops Portfolio.init h base).1

theorem c2Table_nonneg : tableNonneg c2Table := by
  intro s e h
  unfold c2Table pydictGet at h
  by_cases hs : ("A" : String) = s
  · rw [if_pos hs] at h
    have : e = c2Entry := by
      injection h with h2
      exact h2.symm
    rw [this]
    norm_num [c2Entry, TickerEntry.init]
  · rw [if_neg hs] at h
    cases h

theorem C10_witness :
    (∀ op ∈ [LedgerOp.openT "A" 3 c2Table 0, LedgerOp.closeAllT c2Table 1,
      LedgerOp.refreshT c2Table], op.nonneg) ∧
    0 ≤ (runLedgerOps Portfolio.init [LedgerOp.openT "A" 3 c2Table 0,
      LedgerOp.closeAllT c2Table 1, LedgerOp.refreshT c2Table]).cash := by
  have hops : ∀ op ∈ [LedgerOp.openT "A" 3 c2Table 0, LedgerOp.closeAllT c2Table 1,
      LedgerOp.refreshT c2Table], op.nonneg := by
    intro op hop
    rcases List.mem_cons.mp hop with rfl | hop
    · show (0 : ℤ) ≤ 3
      norm_num
    rcases List.mem_cons.mp hop with rfl | hop
    · exact c2Table_nonneg
    rcases List.mem_cons.mp hop with rfl | hop
    · trivial
    · cases hop
  exact ⟨hops, C10_cash_never_negative _ hops⟩

/-! ## Claim C4: close_all liquidates everything at last known prices -/

/-- Cash plus the value of the open book at the table's last known
prices.  This is the quantity preserved by every `close_all` step. -/
def tablePotential (tb : SortedPnlTable) (p : Portfolio) : ℚ :=
  p.cash + (p.trades.map (fun tr => if tr.status = "open"
    then (tb.get_last_price tr.ticker).getD 0 * (tr.quantity : ℚ) else 0)).sum

theorem closeFlip_ticker (t : String) (pr ts mv : ℚ) (tr : Trade) :
    (closeFlip t pr ts mv tr).ticker = tr.ticker := by
  unfold closeFlip
  by_cases hc : tr.ticker = t ∧ tr.status = "open"
  · rw [if_pos hc]
  · rw [if_neg hc]

theorem closeFlip_status_hit (t : String) (pr ts mv : ℚ) (tr : Trade)
    (hc : tr.ticker = t ∧ tr.status = "open") :
    (closeFlip t pr ts mv tr).status = "closed" := by
  unfold closeFlip
  rw [if_pos hc]

theorem closeFlip_status_open (t : String) (pr ts mv : ℚ) (tr : Trade)
    (h : (closeFlip t pr ts mv tr).status = "open") : tr.status = "open" := by
  unfold closeFlip at h
  by_cases hc : tr.ticker = t ∧ tr.status = "open"
  · rw [if_pos hc] at h
    dsimp only at h
    exact absurd h (by decide)
  · rw [if_neg hc] at h
    exact h

theorem tablePotential_close (tb : SortedPnlTable) (ts : ℚ) (p : Portfolio)
    (t : String) (lp : ℚ) (hlp : tb.get_last_price t = some lp) :
    tablePotential tb (p.close_position t lp ts tb).2 = tablePotential tb p := by
  unfold tablePotential
  rw [close_position_cash, close_position_trades, List.map_map]
  have key : (p.trades.map ((fun tr => if tr.status = "open"
      then (tb.get_last_price tr.ticker).getD 0 * (tr.quantity : ℚ) else 0) ∘
      closeFlip t lp ts
      (match pydictGet t tb.ticker_map with
       | some e => e.global_max_pnl
       | none => 0))).sum =
      (p.trades.map (fun tr => (if tr.status = "open"
        then (tb.get_last_price tr.ticker).getD 0 * (tr.quantity : ℚ) else 0) -
        (if tr.ticker = t ∧ tr.status = "open" then lp * (tr.quantity : ℚ) else 0))).sum := by
    apply sumCongr
    intro x _
    show (if (closeFlip t lp ts _ x).status = "open"
      then (tb.get_last_price (closeFlip t lp ts _ x).ticker).getD 0 *
        ((closeFlip t lp ts _ x).quantity : ℚ) else 0) = _
    unfold closeFlip
    by_cases hc : x.ticker = t ∧ x.status = "open"
    · rw [if_pos hc]
      have h1 : ¬ (("closed" : String) = "open") := by decide
      dsimp only
      rw [if_neg h1, if_pos hc.2, if_pos hc, hc.1, hlp]
      simp
    · rw [if_neg hc, if_neg hc]
      ring
  rw [key, sumMapSub]
  show p.cash + hitSum t lp p.trades + (_ - hitSum t lp p.trades) = _
  ring

theorem tablePotential_closeAllStep (tb : SortedPnlTable) (ts : ℚ) (p : Portfolio)
    (i : ℕ) : tablePotential tb (Portfolio.closeAllStep tb ts p i) = tablePotential tb p := by
  unfold Portfolio.closeAllStep
  cases hg : p.trades.get? i with
  | none => rfl
  | some tr =>
      dsimp only
      by_cases hs : tr.status = "open"
      · rw [if_pos hs]
        cases hlp : tb.get_last_price tr.ticker with
        | none => rfl
        | some lp => exact tablePotential_close tb ts p tr.ticker lp hlp
      · rw [if_neg hs]

/-- Trades only flip from open to closed, keep their position in the
list, and keep their ticker. -/
def statusPreserved (p0 p : Portfolio) : Prop :=
  p.trades.length = p0.trades.length ∧
  ∀ i tr0 tr, p0.trades.get? i = some tr0 → p.trades.get? i = some tr →
    tr.ticker = tr0.ticker ∧ (tr.status = "open" → tr0.status = "open")

theorem statusPreserved_refl (p : Portfolio) : statusPreserved p p := by
  refine ⟨rfl, ?_⟩
  intro i tr0 tr h0 h1
  rw [h0] at h1
  injection h1 with h1
  rw [h1]
  exact ⟨rfl, fun hs => hs⟩

theorem statusPreserved_close (p0 p : Portfolio) (t : String) (pr ts : ℚ)
    (tb : SortedPnlTable) (h : statusPreserved p0 p) :
    statusPreserved p0 (p.close_position t pr ts tb).2 := by
  constructor
  · rw [close_position_trades, List.length_map]
    exact h.1
  · intro i tr0 tr h0 h1
    rw [close_position_trades, List.get?_map] at h1
    cases hg : p.trades.get? i with
    | none => rw [hg] at h1; cases h1
    | some x =>
        rw [hg] at h1
        injection h1 with h1
        obtain ⟨hx1, hx2⟩ := h.2 i tr0 x h0 hg
        subst h1
        refine ⟨?_, ?_⟩
        · rw [closeFlip_ticker]
          exact hx1
        · intro hs
          exact hx2 (closeFlip_status_open _ _ _ _ _ hs)

theorem statusPreserved_closeAllStep (p0 p : Portfolio) (tb : SortedPnlTable)
    (ts : ℚ) (i : ℕ) (h : statusPreserved p0 p) :
    statusPreserved p0 (Portfolio.closeAllStep tb ts p i) := by
  unfold Portfolio.closeAllStep
  cases hg : p.trades.get? i with
  | none => exact h
  | some tr =>
      dsimp only
      by_cases hs : tr.status = "open"
      · rw [if_pos hs]
        cases hlp : tb.get_last_price tr.ticker with
        | none => exact h
        | some lp => exact statusPreserved_close p0 p tr.ticker lp ts tb h
      · rw [if_neg hs]
        exact h

theorem notOpen_closeAllStep (tb : SortedPnlTable) (ts : ℚ) (p : Portfolio)
    (j i : ℕ) (h : ∀ tr, p.trades.get? i = some tr → tr.status ≠ "open") :
    ∀ tr, (Portfolio.closeAllStep tb ts p j).trades.get? i = some tr →
      tr.status ≠ "open" := by
  intro tr htr hop
  unfold Portfolio.closeAllStep at htr
  cases hg : p.trades.get? j with
  | none =>
      rw [hg] at htr
      exact h tr htr hop
  | some x =>
      rw [hg] at htr
      dsimp only at htr
      by_cases hs : x.status = "open"
      · rw [if_pos hs] at htr
        cases hlp : tb.get_last_price x.ticker with
        | none =>
            rw [hlp] at htr
            exact h tr htr hop
        | some lp =>
            rw [hlp] at htr
            rw [close_position_trades, List.get?_map] at htr
            cases hgi : p.trades.get? i with
            | none => rw [hgi] at htr; cases htr
            | some y =>
                rw [hgi] at htr
                injection htr with htr
                subst htr
                exact h y hgi (closeFlip_status_open _ _ _ _ _ hop)
      · rw [if_neg hs] at htr
        exact h tr htr hop

theorem notOpen_fold (tb : SortedPnlTable) (ts : ℚ) :
    ∀ (idx : List ℕ) (p : Portfolio) (i : ℕ),
      (∀ tr, p.trades.get? i = some tr → tr.status ≠ "open") →
      ∀ tr, ((idx.foldl (Portfolio.closeAllStep tb ts) p).trades.get? i = some tr) →
        tr.status ≠ "open" := by
  intro idx
  induction idx with
  | nil => intro p i h; exact h
  | cons j rest ih =>
      intro p i h
      exact ih (Portfolio.closeAllStep tb ts p j) i (notOpen_closeAllStep tb ts p j i h)

theorem closeAllStep_closes_self (tb : SortedPnlTable) (ts : ℚ) (p0 p : Portfolio)
    (j : ℕ) (hsp : statusPreserved p0 p)
    (h : ∀ tr ∈ p0.trades, tr.status = "open" → (tb.get_last_price tr.ticker).isSome) :
    ∀ tr, (Portfolio.closeAllStep tb ts p j).trades.get? j = some tr →
      tr.status ≠ "open" := by
  intro tr htr hop
  unfold Portfolio.closeAllStep at htr
  cases hg : p.trades.get? j with
  | none =>
      rw [hg] at htr
      rw [hg] at htr
      cases htr
  | some x =>
      rw [hg] at htr
      dsimp only at htr
      by_cases hs : x.status = "open"
      · rw [if_pos hs] at htr
        have hlt : j < p0.trades.length := by
          rw [← hsp.1]
          exact List.get?_eq_some.mp hg |>.1
        obtain ⟨x0, hg0⟩ : ∃ x0, p0.trades.get? j = some x0 := by
          cases hg0 : p0.trades.get? j with
          | none => rw [List.get?_eq_none] at hg0; omega
          | some y => exact ⟨y, rfl⟩
        obtain ⟨htk, hst⟩ := hsp.2 j x0 x hg0 hg
        have hx0 : x0.status = "open" := hst hs
        have hsome := h x0 (List.get?_mem hg0) hx0
        rw [← htk] at hsome
        cases hlp : tb.get_last_price x.ticker with
        | none => rw [hlp] at hsome; cases hsome
        | some lp =>
            rw [hlp] at htr
            rw [close_position_trades, List.get?_map, hg] at htr
            injection htr with htr
            subst htr
            rw [closeFlip_status_hit x.ticker lp ts _ x ⟨rfl, hs⟩] at hop
            exact absurd hop (by decide)
      · rw [if_neg hs] at htr
        rw [hg] at htr
        injection htr with htr
        subst htr
        exact hs hop

theorem closeAllFold_spec (tb : SortedPnlTable) (ts : ℚ) (p0 : Portfolio)
    (h : ∀ tr ∈ p0.trades, tr.status = "open" → (tb.get_last_price tr.ticker).isSome) :
    ∀ (idx : List ℕ) (p : Portfolio), statusPreserved p0 p →
      statusPreserved p0 (idx.foldl (Portfolio.closeAllStep tb ts) p) ∧
      ∀ i ∈ idx, ∀ tr,
        ((idx.foldl (Portfolio.closeAllStep tb ts) p).trades.get? i = some tr) →
          tr.status ≠ "open" := by
  intro idx
  induction idx with
  | nil =>
      intro p hp
      exact ⟨hp, fun i hi => absurd hi (List.not_mem_nil i)⟩
  | cons j rest ih =>
      intro p hp
      have hp' := statusPreserved_closeAllStep p0 p tb ts j hp
      obtain ⟨ih1, ih2⟩ := ih (Portfolio.closeAllStep tb ts p j) hp'
      refine ⟨ih1, ?_⟩
      intro i hi
      rcases List.mem_cons.mp hi with rfl | hi2
      · exact notOpen_fold tb ts rest (Portfolio.closeAllStep tb ts p i) i
          (closeAllStep_closes_self tb ts p0 p i hp h)
      · exact ih2 i hi2

theorem sumFilterIte {α : Type} (q : α → Bool) (g : α → ℚ) :
    ∀ l : List α, ((l.filter q).map g).sum = (l.map (fun x => if q x then g x else 0)).sum := by
  intro l
  induction l with
  | nil => simp
  | cons x rest ih =>
      by_cases hq : q x
      · rw [List.filter_cons_of_pos hq]
        simp only [List.map_cons, List.sum_cons, hq, if_pos, ih]
      · rw [List.filter_cons_of_neg (by simpa using hq)]
        simp only [List.map_cons, List.sum_cons, ih]
        rw [if_neg (by simpa using hq)]
        ring

/-- Claim C4: assuming every open trade's ticker has a last known price in
the ranking table (true of every trade the ledger ever opens, since
`open_trade` requires a price and table entries are never removed), after
`close_all` no trade is OPEN, and cash equals the cash before plus
`Σ exit_price * quantity` over the previously open trades, each valued at
its ticker's last known price. -/
theorem C4_close_all_liquidates (p : Portfolio) (tb : SortedPnlTable) (ts : ℚ)
    (h : ∀ tr ∈ p.trades, tr.status = "open" → (tb.get_last_price tr.ticker).isSome) :
    (∀ tr ∈ (p.close_all tb ts).trades, tr.status ≠ "open") ∧
    (p.close_all tb ts).cash = p.cash +
      ((p.trades.filter (fun tr => tr.status = "open")).map
        (fun tr => (tb.get_last_price tr.ticker).getD 0 * (tr.quantity : ℚ))).sum := by
  have spec := closeAllFold_spec tb ts p h (List.range p.trades.length) p
    (statusPreserved_refl p)
  unfold Portfolio.close_all
  constructor
  · intro tr htr
    obtain ⟨i, hi⟩ := List.mem_iff_get?.mp htr
    have hlt : i < p.trades.length := by
      have := List.get?_eq_some.mp hi |>.1
      rw [spec.1.1] at this
      exact this
    exact spec.2 i (List.mem_range.mpr hlt) tr hi
  · have hpot : tablePotential tb (List.foldl (Portfolio.closeAllStep tb ts) p
        (List.range p.trades.length)) = tablePotential tb p :=
      foldlPreserve (fun q => tablePotential tb q = tablePotential tb p)
        (Portfolio.closeAllStep tb ts)
        (fun s a hs => by
          show tablePotential tb (Portfolio.closeAllStep tb ts s a) = tablePotential tb p
          rw [tablePotential_closeAllStep]
          exact hs)
        (List.range p.trades.length) p rfl
    have hzero : ((List.foldl (Portfolio.closeAllStep tb ts) p
        (List.range p.trades.length)).trades.map (fun tr => if tr.status = "open"
        then (tb.get_last_price tr.ticker).getD 0 * (tr.quantity : ℚ) else 0)).sum = 0 := by
      apply List.sum_eq_zero
      intro x hx
      obtain ⟨tr, htr, rfl⟩ := List.mem_map.mp hx
      obtain ⟨i, hi⟩ := List.mem_iff_get?.mp htr
      have hlt : i < p.trades.length := by
        have := List.get?_eq_some.mp hi |>.1
        rw [spec.1.1] at this
        exact this
      rw [if_neg (spec.2 i (List.mem_range.mpr hlt) tr hi)]
    unfold tablePotential at hpot
    rw [sumFilterIte]
    simp only [decide_eq_true_eq]
    rw [hzero] at hpot
    linarith

def c4Trade : Trade := openTradeMk "A" 2 10 0

def c4Portfolio : Portfolio :=
  { trades := [c4Trade], cash := 999980, total_pnl := 0 }

theorem C4_witness :
    (∀ tr ∈ c4Portfolio.trades, tr.status = "open" →
      (c2Table.get_last_price tr.ticker).isSome) ∧
    (∀ tr ∈ (c4Portfolio.close_all c2Table 5).trades, tr.status ≠ "open") ∧
    (c4Portfolio.close_all c2Table 5).cash = c4Portfolio.cash +
      ((c4Portfolio.trades.filter (fun tr => tr.status = "open")).map
        (fun tr => (c2Table.get_last_price tr.ticker).getD 0 * (tr.quantity : ℚ))).sum := by
  have hp : ∀ tr ∈ c4Portfolio.trades, tr.status = "open" →
      (c2Table.get_last_price tr.ticker).isSome := by
    intro tr htr _
    rcases List.mem_singleton.mp htr with rfl
    rfl
  exact ⟨hp, (C4_close_all_liquidates c4Portfolio c2Table 5 hp).1,
    (C4_close_all_liquidates c4Portfolio c2Table 5 hp).2⟩

/-! ## Claim C8: an unreadable day file degrades to zero metrics -/

/-- Claim C8: a day file that cannot be read yields the zero-valued day
metrics dict (`file_pnl = 0`, `file_invested_capital = 0`,
`num_traded = 0`, `roi` the 0.0 placeholder), and the batch aggregation
over the remaining days still completes: the batch totals are exactly the
sums over the readable days (the bad day contributes zero). -/
theorem C8_unreadable_day_zero_metrics (params : StrategyParams)
    (fs1 fs2 : List (Option DayData)) :
    SingleFileSimulator.run_single_file params none =
      { file_pnl := 0, file_invested_capital := 0, num_traded := 0,
        roi := RoiValue.finite 0 } ∧
    (MultiFileSimulator.run_all_files params (fs1 ++ none :: fs2)).total_pnl =
      ((fs1 ++ fs2).map
        (fun f => (SingleFileSimulator.run_single_file params f).file_pnl)).sum ∧
    (MultiFileSimulator.run_all_files params (fs1 ++ none :: fs2)).total_trades =
      ((fs1 ++ fs2).map
        (fun f => (SingleFileSimulator.run_single_file params f).num_traded)).sum := by
  have h0 : SingleFileSimulator.run_single_file params none =
      { file_pnl := 0, file_invested_capital := 0, num_traded := 0,
        roi := RoiValue.finite 0 } := rfl
  refine ⟨h0, ?_, ?_⟩
  · show (((fs1 ++ none :: fs2).map
      (MultiFileSimulator.simulate_single_file params)).map FileMetrics.file_pnl).sum = _
    unfold MultiFileSimulator.simulate_single_file
    simp only [List.map_append, List.map_cons, List.sum_append, List.sum_cons, h0,
      List.map_map]
    norm_num
    rfl
  · show (((fs1 ++ none :: fs2).map
      (MultiFileSimulator.simulate_single_file params)).map FileMetrics.num_traded).sum = _
    unfold MultiFileSimulator.simulate_single_file
    simp only [List.map_append, List.map_cons, List.sum_append, List.sum_cons, h0,
      List.map_map]
    norm_num
    rfl

/-! ## Claim C3: cache hit for structurally equal, differently ordered configs -/

theorem keyLe_trans (a b c : String × JValue) (hab : keyLe a b = true)
    (hbc : keyLe b c = true) : keyLe a c = true := by
  unfold keyLe at hab hbc ⊢
  simp only [decide_eq_true_eq] at hab hbc ⊢
  exact le_trans hab hbc

theorem keyLe_total (a b : String × JValue) : (keyLe a b || keyLe b a) = true := by
  unfold keyLe
  rcases le_total a.1 b.1 with h | h <;> simp [h]

theorem make_key_perm_eq (p1 p2 : List (String × JValue)) (hp : p1.Perm p2)
    (hn : (p1.map Prod.fst).Nodup) :
    SimulationMemoire.make_key p1 = SimulationMemoire.make_key p2 := by
  unfold SimulationMemoire.make_key
  congr 1
  have hs1 := List.sorted_mergeSort keyLe_trans keyLe_total p1
  have hs2 := List.sorted_mergeSort keyLe_trans keyLe_total p2
  have hperm : (p1.mergeSort keyLe).Perm (p2.mergeSort keyLe) :=
    (List.mergeSort_perm p1 keyLe).trans (hp.trans (List.mergeSort_perm p2 keyLe).symm)
  have hn2 : (p2.map Prod.fst).Nodup := ((hp.map Prod.fst).nodup_iff).mp hn
  have hn1s : ((p1.mergeSort keyLe).map Prod.fst).Nodup :=
    (((List.mergeSort_perm p1 keyLe).map Prod.fst).nodup_iff).mpr hn
  have hn2s : ((p2.mergeSort keyLe).map Prod.fst).Nodup :=
    (((List.mergeSort_perm p2 keyLe).map Prod.fst).nodup_iff).mpr hn2
  have hlt1 : List.Pairwise (fun a b : String × JValue => a.1 < b.1) (p1.mergeSort keyLe) := by
    have hne := List.pairwise_map.mp hn1s
    refine (hs1.and hne).imp ?_
    intro a b hab
    have h1 : a.1 ≤ b.1 := by
      have := hab.1
      unfold keyLe at this
      simpa using this
    exact lt_of_le_of_ne h1 hab.2
  have hlt2 : List.Pairwise (fun a b : String × JValue => a.1 < b.1) (p2.mergeSort keyLe) := by
    have hne := List.pairwise_map.mp hn2s
    refine (hs2.and hne).imp ?_
    intro a b hab
    have h1 : a.1 ≤ b.1 := by
      have := hab.1
      unfold keyLe at this
      simpa using this
    exact lt_of_le_of_ne h1 hab.2
  haveI : IsAntisymm (String × JValue) (fun a b => a.1 < b.1) :=
    ⟨fun a b h1 h2 => absurd h2 (lt_asymm h1)⟩
  exact List.eq_of_perm_of_sorted hperm hlt1 hlt2

theorem pydictGet_insert_self {α β : Type} [DecidableEq α] (k : α) (v : β) :
    ∀ l : List (α × β), pydictGet k (pydictInsert k v l) = some v := by
  intro l
  induction l with
  | nil => simp [pydictInsert, pydictGet]
  | cons kv rest ih =>
      by_cases hk : kv.1 = k
      · unfold pydictInsert
        rw [show (kv.1, kv.2) = kv from rfl] at *
        simp [hk, pydictGet]
      · unfold pydictInsert pydictGet
        simp [hk, ih]

/-- Claim C3: two `run_simulation_display` calls with structurally equal
but differently key-ordered configuration maps: the second is a cache hit
— it runs no simulation (`false` flag), returns the stored metrics'
`total_pnl`, and leaves the memoire unchanged. -/
theorem C3_cache_hit_on_reordered_config
    (sim : List (String × JValue) → SimMetrics)
    (memoire : List (String × SimMetrics))
    (p1 p2 : List (String × JValue))
    (hp : p1.Perm p2) (hn : (p1.map Prod.fst).Nodup) :
    (SimulationRunner.run_simulation_display sim
      (SimulationRunner.run_simulation_display sim memoire p1).2.1 p2).2.2 = false ∧
    (SimulationRunner.run_simulation_display sim
      (SimulationRunner.run_simulation_display sim memoire p1).2.1 p2).1 =
      (SimulationRunner.run_simulation_display sim memoire p1).1 ∧
    (SimulationRunner.run_simulation_display sim
      (SimulationRunner.run_simulation_display sim memoire p1).2.1 p2).2.1 =
      (SimulationRunner.run_simulation_display sim memoire p1).2.1 := by
  have hkey := make_key_perm_eq p1 p2 hp hn
  unfold SimulationRunner.run_simulation_display SimulationMemoire.has_been_tested
    SimulationMemoire.get_pnl SimulationMemoire.add_result
  rw [← hkey]
  by_cases hmem : pydictMem (SimulationMemoire.make_key p1) memoire
  · simp [hmem]
  · have hself := pydictGet_insert_self (SimulationMemoire.make_key p1) (sim p1) memoire
    have hmm : pydictMem (SimulationMemoire.make_key p1)
        (pydictInsert (SimulationMemoire.make_key p1) (sim p1) memoire) = true := by
      unfold pydictMem
      rw [hself]
      rfl
    simp [hmem, hmm, hself]

def c3P1 : List (String × JValue) := [("beta", JValue.num 2), ("alpha", JValue.num 1)]

def c3P2 : List (String × JValue) := [("alpha", JValue.num 1), ("beta", JValue.num 2)]

theorem C3_witness :
    c3P1.Perm c3P2 ∧ (c3P1.map Prod.fst).Nodup ∧
    (SimulationRunner.run_simulation_display (fun _ => SimMetrics.zero)
      (SimulationRunner.run_simulation_display (fun _ => SimMetrics.zero) [] c3P1).2.1
      c3P2).2.2 = false ∧
    (SimulationRunner.run_simulation_display (fun _ => SimMetrics.zero)
      (SimulationRunner.run_simulation_display (fun _ => SimMetrics.zero) [] c3P1).2.1
      c3P2).1 =
      (SimulationRunner.run_simulation_display (fun _ => SimMetrics.zero) [] c3P1).1 := by
  have hp : c3P1.Perm c3P2 := by
    unfold c3P1 c3P2
    exact List.Perm.swap _ _ _
  have hn : (c3P1.map Prod.fst).Nodup := by
    unfold c3P1
    decide
  have happ := C3_cache_hit_on_reordered_config (fun _ => SimMetrics.zero) [] c3P1 c3P2 hp hn
  exact ⟨hp, hn, happ.1, happ.2.1⟩

/-! ## Claim C6: the noise floor on the standard deviation gates entries -/

/-- The `current_pnl` values of the top-15 ranked symbols. -/
def top15Pnls (tb : SortedPnlTable) : List ℚ :=
  (tb.get_top_n 15).map (fun x => x.2.get_pnl)

theorem get_top_n_lookup (tb : SortedPnlTable) (n : ℕ) (s : String) (e : TickerEntry)
    (h : (s, e) ∈ tb.get_top_n n) : pydictGet s tb.ticker_map = some e := by
  unfold SortedPnlTable.get_top_n at h
  obtain ⟨x, _, hfx⟩ := List.mem_filterMap.mp h
  cases hg : pydictGet x tb.ticker_map with
  | none => rw [hg] at hfx; cases hfx
  | some e2 =>
      rw [hg] at hfx
      injection hfx with hfx
      obtain ⟨h1, h2⟩ := Prod.mk.injEq .. |>.mp hfx
      rw [← h1, hg, h2]

theorem calcEchGo_nil (topN : ℕ) (minEsc mult mean var : ℚ) (len : ℕ) (ts : ℚ)
    (esc topn : List (String × ℚ)) (acc : List String) :
    calcEchGo topN minEsc mult mean var len ts [] esc topn acc = (esc, topn, acc) := rfl

theorem mem_ite_append (c : Prop) [Decidable c] (acc : List String) (x t : String)
    (h : t ∈ (if c then acc ++ [x] else acc)) : t ∈ acc ∨ t = x := by
  split at h
  · rcases List.mem_append.mp h with h1 | h1
    · exact Or.inl h1
    · exact Or.inr (List.mem_singleton.mp h1)
  · exact Or.inl h

theorem calcEchGo_mem (topN : ℕ) (minEsc mult mean var : ℚ) (len : ℕ) (ts : ℚ) :
    ∀ (rows : List (ℕ × String × ℚ)) (esc topn : List (String × ℚ))
      (acc : List String) (t : String),
      t ∈ (calcEchGo topN minEsc mult mean var len ts rows esc topn acc).2.2 →
      t ∈ acc ∨ ∃ i pnl, (i, t, pnl) ∈ rows ∧
        echThresholdGt pnl mean mult var len = true := by
  intro rows
  induction rows with
  | nil =>
      intro esc topn acc t h
      rw [calcEchGo_nil] at h
      exact Or.inl h
  | cons row rest ih =>
      intro esc topn acc t h
      obtain ⟨i, ticker, pnl⟩ := row
      simp only [calcEchGo] at h
      by_cases hth : echThresholdGt pnl mean mult var len = true
      · rw [if_pos hth] at h
        by_cases hmem : pydictMem ticker esc = true
        · rw [if_pos hmem] at h
          rcases ih _ _ _ t h with hacc | ⟨j, pnl2, hrow, hth2⟩
          · rcases mem_ite_append _ _ _ _ hacc with h1 | rfl
            · exact Or.inl h1
            · exact Or.inr ⟨i, pnl, List.mem_cons_self _ _, hth⟩
          · exact Or.inr ⟨j, pnl2, List.mem_cons_of_mem _ hrow, hth2⟩
        · rw [if_neg hmem] at h
          rcases ih _ _ _ t h with hacc | ⟨j, pnl2, hrow, hth2⟩
          · exact Or.inl hacc
          · exact Or.inr ⟨j, pnl2, List.mem_cons_of_mem _ hrow, hth2⟩
      · rw [if_neg hth] at h
        rcases ih _ _ _ t h with hacc | ⟨j, pnl2, hrow, hth2⟩
        · exact Or.inl hacc
        · exact Or.inr ⟨j, pnl2, List.mem_cons_of_mem _ hrow, hth2⟩

theorem tickersData_snd (tb : SortedPnlTable) :
    ((tb.get_top_n 15).map (fun x => (x.1, x.2.get_pnl))).map Prod.snd = top15Pnls tb := by
  unfold top15Pnls
  rw [List.map_map]
  rfl

/-- Claim C6: if the standard deviation of the `current_pnl` values of the
top-15 ranked symbols is below 5, entry evaluation is skipped entirely
(`calculate_echappees` returns no breakout candidate and leaves the state
untouched); and any symbol it does return exceeds
`mean + start_multiplier * stddev` over those top-15 values. -/
theorem C6_noise_floor_gates_entries (a : AlgoEchappee) (table : SortedPnlTable)
    (ts : ℚ) :
    (Real.sqrt ((npVar (top15Pnls table) : ℚ) : ℝ) < 5 →
      a.calculate_echappees table ts = (a, [])) ∧
    (∀ t ∈ (a.calculate_echappees table ts).2, ∀ e : TickerEntry,
      (t, e) ∈ table.get_top_n 15 →
      ((e.get_pnl : ℚ) : ℝ) >
        ((npMean (top15Pnls table) : ℚ) : ℝ) + (a.start_echappee_threshold : ℝ) *
          Real.sqrt ((npVar (top15Pnls table) : ℚ) : ℝ)) := by
  have htd := tickersData_snd table
  constructor
  · intro hstd
    have hvar : npVar (top15Pnls table) < 25 := (stdLtFive_iff _).mp hstd
    simp only [AlgoEchappee.calculate_echappees]
    split
    · rfl
    · rw [htd]
      by_cases hlen : 2 < (top15Pnls table).length
      · rw [if_pos hlen, if_pos (decide_eq_true hvar)]
      · rw [if_neg hlen, if_pos rfl]
  · intro t ht e hte
    simp only [AlgoEchappee.calculate_echappees] at ht
    split at ht
    · cases ht
    · rename_i hne
      rw [htd] at ht
      by_cases hlen : 2 < (top15Pnls table).length
      · rw [if_pos hlen] at ht
        by_cases hv : npVar (top15Pnls table) < 25
        · rw [if_pos (decide_eq_true hv)] at ht
          simp at ht
        · rw [if_neg (by simpa using hv)] at ht
          dsimp only at ht
          rcases calcEchGo_mem _ _ _ _ _ _ _ _ _ _ _ _ ht with hnil | ⟨i, pnl, hrow, hth⟩
          · cases hnil
          · have hpnl_mem : (t, pnl) ∈ (table.get_top_n 15).map (fun x => (x.1, x.2.get_pnl)) := by
              have hs := List.enum_map_snd ((table.get_top_n 15).map (fun x => (x.1, x.2.get_pnl)))
              rw [← hs]
              exact List.mem_map_of_mem Prod.snd hrow
            obtain ⟨x, hx, hxe⟩ := List.mem_map.mp hpnl_mem
            have hx1 : x.1 = t := (Prod.mk.injEq .. |>.mp hxe).1
            have hx2 : x.2.get_pnl = pnl := (Prod.mk.injEq .. |>.mp hxe).2
            have hlook : pydictGet t table.ticker_map = some x.2 := by
              rw [← hx1]
              refine get_top_n_lookup table 15 x.1 x.2 ?_
              rw [Prod.mk.eta (p := x)]
              exact hx
            have hlooke : pydictGet t table.ticker_map = some e :=
              get_top_n_lookup table 15 t e hte
            have hee : x.2 = e := by
              rw [hlook] at hlooke
              injection hlooke
            rw [echThresholdGt, if_pos hlen] at hth
            have hreal := (stdCmp_gtMulSqrt (pnl - npMean (top15Pnls table))
              a.start_echappee_threshold (npVar (top15Pnls table))
              (npVar_nonneg _)).mp hth
            rw [hee] at hx2
            rw [hx2]
            push_cast at hreal ⊢
            linarith
      · rw [if_neg hlen, if_pos rfl] at ht
        simp at ht

def c6Entry (pnl : ℚ) : TickerEntry :=
  { TickerEntry.init 100 0 with current_pnl := pnl }

def c6Table : SortedPnlTable :=
  { ticker_map := [("A", c6Entry 25), ("B", c6Entry 0), ("C", c6Entry 0),
      ("D", c6Entry 0), ("E", c6Entry 0)],
    sorted_tickers := ["A", "B", "C", "D", "E"], updates_since_last_sort := 0 }

def c6Table2 : SortedPnlTable :=
  { ticker_map := [("F", c6Entry 7)], sorted_tickers := ["F"],
    updates_since_last_sort := 0 }

def c6Algo : AlgoEchappee :=
  { take_profit_market_pnl := 50, min_escape_time := 300, trail_stop_market_pnl := 20,
    stop_echappee_threshold := 0, start_echappee_threshold := 1, min_market_pnl := 15,
    top_n_threshold := 5, trade_interval_minutes := 30, trade_value_eur := 1000,
    max_pnl_timeout_minutes := 60, max_trades_per_day := 3, trade_cutoff_hour := (14, 0),
    trade_start_hour := (9, 30), max_trade_duration_minutes := 60,
    portfolio := Portfolio.init, traded_tickers := [],
    escape_start_times := [("A", 0)], top_n_start_times := [("A", 0)],
    last_trade_time := none, trades_today := [] }

theorem C6_witness :
    "A" ∈ (c6Algo.calculate_echappees c6Table 1000).2 ∧
    (((c6Entry 25).get_pnl : ℚ) : ℝ) >
      ((npMean (top15Pnls c6Table) : ℚ) : ℝ) + (c6Algo.start_echappee_threshold : ℝ) *
        Real.sqrt ((npVar (top15Pnls c6Table) : ℚ) : ℝ) ∧
    Real.sqrt ((npVar (top15Pnls c6Table2) : ℚ) : ℝ) < 5 ∧
    c6Algo.calculate_echappees c6Table2 5 = (c6Algo, []) := by
  have htop : c6Table.get_top_n 15 = [("A", c6Entry 25), ("B", c6Entry 0),
      ("C", c6Entry 0), ("D", c6Entry 0), ("E", c6Entry 0)] := rfl
  have hmem : "A" ∈ (c6Algo.calculate_echappees c6Table 1000).2 := by
    norm_num [AlgoEchappee.calculate_echappees, calcEchGo, htop,
      pydictGet, pydictMem, pydictInsert, pydictErase, c6Entry,
      TickerEntry.init, TickerEntry.get_pnl, c6Algo, npMean, npVar, echThresholdGt,
      gtMulSqrt, List.enum, List.enumFrom, List.isEmpty, Option.some_ne_none,
      (by decide : (("A" : String) = "B") = False),
      (by decide : (("A" : String) = "C") = False),
      (by decide : (("A" : String) = "D") = False),
      (by decide : (("A" : String) = "E") = False),
      (by decide : (("B" : String) = "A") = False),
      (by decide : (("B" : String) = "C") = False),
      (by decide : (("B" : String) = "D") = False),
      (by decide : (("B" : String) = "E") = False),
      (by decide : (("C" : String) = "A") = False),
      (by decide : (("C" : String) = "B") = False),
      (by decide : (("C" : String) = "D") = False),
      (by decide : (("C" : String) = "E") = False),
      (by decide : (("D" : String) = "A") = False),
      (by decide : (("D" : String) = "B") = False),
      (by decide : (("D" : String) = "C") = False),
      (by decide : (("D" : String) = "E") = False),
      (by decide : (("E" : String) = "A") = False),
      (by decide : (("E" : String) = "B") = False),
      (by decide : (("E" : String) = "C") = False),
      (by decide : (("E" : String) = "D") = False)]
  have hpair : ("A", c6Entry 25) ∈ c6Table.get_top_n 15 := by
    rw [htop]
    exact List.mem_cons_self _ _
  have htop2 : c6Table2.get_top_n 15 = [("F", c6Entry 7)] := rfl
  have hstd : Real.sqrt ((npVar (top15Pnls c6Table2) : ℚ) : ℝ) < 5 := by
    rw [stdLtFive_iff]
    norm_num [top15Pnls, htop2, c6Entry, TickerEntry.init, TickerEntry.get_pnl,
      npVar, npMean]
  exact ⟨hmem,
    (C6_noise_floor_gates_entries c6Algo c6Table 1000).2 "A" hmem (c6Entry 25) hpair,
    hstd,
    (C6_noise_floor_gates_entries c6Algo c6Table2 5).1 hstd⟩

/-! ## Claim C1: which symbol the periodic fallback buys -/

theorem resort_get_last_price (tb : SortedPnlTable) (s : String) :
    (tb.resort).get_last_price s = tb.get_last_price s := rfl

theorem best_pnl_is_open (p : Portfolio) (tb : SortedPnlTable) (s : String)
    (h : (p.get_open_trade_best_pnl tb).1 = some s) :
    p.is_ticker_in_portfolio s = true := by
  unfold Portfolio.get_open_trade_best_pnl at h
  dsimp only at h
  have hfind := List.find?_some h
  rw [decide_eq_true_eq] at hfind
  unfold Portfolio.get_open_tickers at hfind
  rw [List.mem_mergeSort, List.mem_dedup] at hfind
  obtain ⟨tr, htr, rfl⟩ := List.mem_map.mp hfind
  have hmf := List.mem_filter.mp htr
  unfold Portfolio.is_ticker_in_portfolio
  rw [List.any_eq_true]
  refine ⟨tr, hmf.1, ?_⟩
  rw [decide_eq_true_eq]
  exact ⟨rfl, by simpa using hmf.2⟩

/-- Claim C1 (amended): whenever the periodic fallback opens a position,
the symbol is `get_open_trade_best_pnl`'s choice: the highest-ranked
symbol in the freshly resorted leaderboard among the symbols **with** an
open position (so the new trade doubles down on an already-open symbol;
if no position is open, no periodic trade fires), with
`quantity = int(trade_value_eur / last_price)`. -/
theorem C1_periodic_fallback_buys_best_open (a : AlgoEchappee) (tb : SortedPnlTable)
    (ts : ℚ) (tr : Trade)
    (h : (a.periodicPhase tb ts).1.portfolio.trades = a.portfolio.trades ++ [tr]) :
    (a.portfolio.get_open_trade_best_pnl tb).1 = some tr.ticker ∧
    a.portfolio.is_ticker_in_portfolio tr.ticker = true ∧
    ∃ price, tb.get_last_price tr.ticker = some price ∧ 0 < price ∧
      tr.quantity = pyInt (a.trade_value_eur / price) := by
  simp only [AlgoEchappee.periodicPhase] at h
  split at h
  case isFalse =>
    dsimp only at h
    simp at h
  case isTrue =>
    split at h
    case isFalse =>
      dsimp only at h
      simp at h
    case isTrue =>
      split at h
      case h_2 =>
        dsimp only at h
        simp at h
      case h_1 bt hbest =>
        split at h
        case h_2 =>
          dsimp only at h
          simp at h
        case h_1 lp hlp =>
          split at h
          case isFalse =>
            dsimp only at h
            simp at h
          case isTrue hlp0 =>
            split at h
            case isFalse =>
              dsimp only at h
              simp at h
            case isTrue hq0 =>
              rcases open_trade_cases a.portfolio bt
                  (pyInt (a.trade_value_eur / lp))
                  (a.portfolio.get_open_trade_best_pnl tb).2 ts with
                hfail | ⟨lp2, hlp2, hc2, hsucc⟩
              · rw [hfail] at h
                dsimp only at h
                simp at h
              · rw [hsucc] at h
                dsimp only at h
                have hlp2' : lp2 = lp := by
                  rw [hlp] at hlp2
                  injection hlp2 with hlp2
                  exact hlp2.symm
                have htr : openTradeMk bt (pyInt (a.trade_value_eur / lp)) lp2 ts = tr := by
                  have := List.append_cancel_left h
                  injection this
                have htk : tr.ticker = bt := by
                  rw [← htr]
                  rfl
                have hqty : tr.quantity = pyInt (a.trade_value_eur / lp) := by
                  rw [← htr]
                  rfl
                refine ⟨?_, ?_, lp, ?_, ?_, ?_⟩
                · rw [htk]
                  exact hbest
                · rw [htk]
                  exact best_pnl_is_open a.portfolio tb bt hbest
                · rw [htk]
                  exact hlp
                · simpa using hlp0
                · exact hqty

def c1EntryA : TickerEntry :=
  { TickerEntry.init 100 50000 with
    last_price := 104
    last_time := 57500
    current_pnl := 4
    global_max_pnl := 4
    global_max_time := 57500
    highest_pnl_so_far := 4 }

def c1EntryB : TickerEntry :=
  { TickerEntry.init 100 50000 with
    last_price := 103
    last_time := 57600
    current_pnl := 3
    global_max_pnl := 3
    global_max_time := 57600
    highest_pnl_so_far := 3 }

def c1EntryC : TickerEntry := TickerEntry.init 100 50000

def c1Table : SortedPnlTable :=
  { ticker_map := [("A", c1EntryA), ("B", c1EntryB), ("C", c1EntryC)],
    sorted_tickers := ["A", "B", "C"], updates_since_last_sort := 0 }

def c1TradeB : Trade :=
  { ticker := "B", quantity := 1, entry_price := 100, entry_time := 57540,
    last_price := 103, unrealized_pnl := 3, unrealized_pnl_max := 3,
    status := "open", invested_amount := 100, exit_price := none,
    exit_time := none, realized_pnl := none, market_pnl_max := none }

def c1Algo : AlgoEchappee :=
  { take_profit_market_pnl := 1000, min_escape_time := 300,
    trail_stop_market_pnl := 20, stop_echappee_threshold := 0,
    start_echappee_threshold := 78 / 100, min_market_pnl := 15,
    top_n_threshold := 5, trade_interval_minutes := 30, trade_value_eur := 1000,
    max_pnl_timeout_minutes := 60, max_trades_per_day := 3,
    trade_cutoff_hour := (14, 0), trade_start_hour := (9, 30),
    max_trade_duration_minutes := 60,
    portfolio := { trades := [c1TradeB], cash := 999900, total_pnl := 0 },
    traded_tickers := ["B"], escape_start_times := [], top_n_start_times := [],
    last_trade_time := some 50400, trades_today := [] }

def c1TableSorted : SortedPnlTable :=
  { ticker_map := [("A", c1EntryA), ("B", c1EntryB), ("C", c1EntryC)],
    sorted_tickers := ["A", "B", "C"], updates_since_last_sort := 0 }

theorem c1_top : c1Table.get_top_n 15 =
    [("A", c1EntryA), ("B", c1EntryB), ("C", c1EntryC)] := rfl

theorem c1_pnlA : c1EntryA.get_pnl = 4 := rfl

theorem c1_pnlB : c1EntryB.get_pnl = 3 := rfl

theorem c1_pnlC : c1EntryC.get_pnl = 0 := rfl

theorem c1_lpB : c1Table.get_last_price "B" = some 103 := rfl

theorem c1_getB : pydictGet "B" c1Table.ticker_map = some c1EntryB := rfl

theorem c1_opents : c1Algo.portfolio.get_open_tickers = ["B"] := by
  have htr : c1Algo.portfolio.trades = [c1TradeB] := rfl
  unfold Portfolio.get_open_tickers
  rw [htr]
  norm_num [c1TradeB, List.dedup, List.mergeSort]

theorem c1_resort : c1Table.resort = c1TableSorted := by
  unfold SortedPnlTable.resort c1TableSorted
  norm_num [c1Table, pnlDescLe, List.mergeSort, List.merge, c1_pnlA, c1_pnlB, c1_pnlC]

theorem c1_exit : c1Algo.exitPhase c1Table 57600 = c1Algo := by
  unfold AlgoEchappee.exitPhase
  rw [c1_opents, List.foldl_cons, List.foldl_nil]
  have hstep : c1Algo.exitStep c1Table 57600 c1Algo.portfolio "B" = c1Algo.portfolio := by
    unfold AlgoEchappee.exitStep
    rw [c1_lpB]
    dsimp only
    rw [c1_getB]
    dsimp only
    norm_num [TickerEntry.get_pnl, c1EntryB, TickerEntry.init, c1Algo, c1TradeB,
      List.any_cons, List.any_nil]
  rw [hstep]

theorem c1_stop : c1Algo.stopPhase c1Table 57600 = c1Algo := by
  unfold AlgoEchappee.stopPhase
  rw [c1_top, c1_opents]
  norm_num [pydictInsert, pydictMem, pydictGet, c1_pnlA, c1_pnlB, c1_pnlC, c1_getB,
    c1_lpB, npMean, npVar, stopSeuilLe, gtMulSqrt, List.isEmpty,
    (show c1Algo.stop_echappee_threshold = 0 from rfl),
    (by decide : (("A" : String) = "B") = False),
    (by decide : (("A" : String) = "C") = False),
    (by decide : (("B" : String) = "A") = False),
    (by decide : (("B" : String) = "C") = False),
    (by decide : (("C" : String) = "A") = False),
    (by decide : (("C" : String) = "B") = False)]
  rfl

theorem c1_can : c1Algo.can_open_trade 57600 = true := by
  unfold AlgoEchappee.can_open_trade
  norm_num [pyGetDate, pyGetHour, parseTimeHM, c1Algo, pydictGet]

theorem c1_ech : c1Algo.calculate_echappees c1Table 57600 = (c1Algo, []) := by
  unfold AlgoEchappee.calculate_echappees
  rw [c1_top]
  norm_num [c1_pnlA, c1_pnlB, c1_pnlC, npVar, npMean, List.isEmpty]

theorem c1_openPhase : c1Algo.openPhase c1Table 57600 = c1Algo := by
  unfold AlgoEchappee.openPhase
  rw [c1_can, c1_ech]
  rfl

theorem c1_best : c1Algo.portfolio.get_open_trade_best_pnl c1Table =
    (some "B", c1TableSorted) := by
  unfold Portfolio.get_open_trade_best_pnl
  rw [c1_resort, c1_opents]
  norm_num [c1TableSorted, List.find?]
  decide

theorem c1_lpSortedB : c1TableSorted.get_last_price "B" = some 103 := rfl

theorem c1_periodic : (c1Algo.periodicPhase c1Table 57600).1.portfolio.trades =
    c1Algo.portfolio.trades ++ [openTradeMk "B" 9 103 57600] := by
  have hltt : c1Algo.last_trade_time = some 50400 := rfl
  have hti : c1Algo.trade_interval_minutes = 30 := rfl
  have htv : c1Algo.trade_value_eur = 1000 := rfl
  have hcash : c1Algo.portfolio.cash = 999900 := rfl
  have hqty : pyInt (c1Algo.trade_value_eur / 103) = 9 := by
    rw [htv]
    unfold pyInt
    norm_num
  have hopen : c1Algo.portfolio.open_trade "B" 9 c1TableSorted 57600 =
      (true, { c1Algo.portfolio with
        trades := c1Algo.portfolio.trades ++ [openTradeMk "B" 9 103 57600],
        cash := c1Algo.portfolio.cash - 103 * 9 }) := by
    unfold Portfolio.open_trade
    rw [c1_lpSortedB]
    dsimp only
    rw [hcash]
    norm_num
  unfold AlgoEchappee.periodicPhase
  rw [hltt]
  rw [hti]
  rw [if_pos (show decide ((57600 : ℚ) - 50400 ≥ (30 : ℚ) * 60) = true from by norm_num)]
  rw [c1_can]
  dsimp only
  rw [c1_best]
  dsimp only
  rw [c1_lpSortedB]
  dsimp only
  rw [if_pos (by norm_num : ((103 : ℚ) > 0))]
  rw [hqty]
  rw [if_pos (by norm_num : ((9 : ℤ) > 0))]
  rw [hopen]
  rfl

theorem c1_main_run :
    (c1Algo.main c1Table 57600).1.portfolio.trades =
      c1Algo.portfolio.trades ++ [openTradeMk "B" 9 103 57600] := by
  unfold AlgoEchappee.main
  rw [c1_exit, c1_stop, c1_openPhase]
  exact c1_periodic

/-- Claim C1 counterexample: a full strategy cycle in which the periodic
fallback fires and opens a trade on "B" — a symbol that already has an
open position — although "A" is the symbol sitting highest in the
leaderboard among symbols **without** an open position.  The claim's
"among symbols without an open position" is wrong: the code's
`get_open_trade_best_pnl` searches among the symbols **with** one. -/
theorem C1_counterexample :
    (c1Algo.main c1Table 57600).1.portfolio.trades =
      c1Algo.portfolio.trades ++ [openTradeMk "B" 9 103 57600] ∧
    (openTradeMk "B" 9 103 57600).ticker = "B" ∧
    c1Algo.portfolio.is_ticker_in_portfolio "B" = true ∧
    (c1Table.resort).sorted_tickers.find?
      (fun s => ! c1Algo.portfolio.is_ticker_in_portfolio s) = some "A" ∧
    ("A" : String) ≠ "B" := by
  refine ⟨c1_main_run, rfl, rfl, ?_, by decide⟩
  rw [c1_resort]
  rfl

theorem C1_witness :
    (c1Algo.periodicPhase c1Table 57600).1.portfolio.trades =
      c1Algo.portfolio.trades ++ [openTradeMk "B" 9 103 57600] ∧
    (c1Algo.portfolio.get_open_trade_best_pnl c1Table).1 =
      some (openTradeMk "B" 9 103 57600).ticker ∧
    c1Algo.portfolio.is_ticker_in_portfolio (openTradeMk "B" 9 103 57600).ticker = true ∧
    ∃ price, c1Table.get_last_price (openTradeMk "B" 9 103 57600).ticker = some price ∧
      0 < price ∧ (openTradeMk "B" 9 103 57600).quantity =
        pyInt (c1Algo.trade_value_eur / price) := by
  have h := c1_periodic
  have happ := C1_periodic_fallback_buys_best_open c1Algo c1Table 57600
    (openTradeMk "B" 9 103 57600) h
  exact ⟨h, happ.1, happ.2.1, happ.2.2⟩

/-! ## Claim C9: at most one breakout entry per symbol per day -/

/-- Number of trades (open or closed) booked for a symbol. -/
def countTradesFor (s : String) (p : Portfolio) : ℕ :=
  (p.trades.filter (fun tr => tr.ticker = s)).length

/-- Number of trades for `s` opened by the breakout-entry block
(`openPhase`) over a sequence of strategy cycles (each cycle `main` is the
composition `exitPhase; stopPhase; openPhase; periodicPhase`). -/
def AlgoEchappee.breakoutOpens (s : String) : AlgoEchappee → List (SortedPnlTable × ℚ) → ℕ
  | _, [] => 0
  | a, (tb, ts) :: rest =>
      let st2 := (a.exitPhase tb ts).stopPhase tb ts
      let st3 := st2.openPhase tb ts
      (countTradesFor s st3.portfolio - countTradesFor s st2.portfolio) +
        AlgoEchappee.breakoutOpens s (st3.periodicPhase tb ts).1 rest

theorem exitPhase_traded (st : AlgoEchappee) (tb : SortedPnlTable) (ts : ℚ) :
    (st.exitPhase tb ts).traded_tickers = st.traded_tickers := rfl

theorem stopPhase_traded (st : AlgoEchappee) (tb : SortedPnlTable) (ts : ℚ) :
    (st.stopPhase tb ts).traded_tickers = st.traded_tickers := rfl

theorem countTradesFor_append (s : String) (p : Portfolio) (tr : Trade) (c : ℚ) :
    countTradesFor s { p with trades := p.trades ++ [tr], cash := c } =
      countTradesFor s p + (if tr.ticker = s then 1 else 0) := by
  unfold countTradesFor
  dsimp only
  rw [List.filter_append]
  rw [List.length_append]
  by_cases h : tr.ticker = s
  · simp [h]
  · simp [h]

theorem openOne_spec (tb : SortedPnlTable) (ts : ℚ) (t s : String) (st : AlgoEchappee) :
    (s ∈ st.traded_tickers →
      countTradesFor s (st.openOne tb ts t).portfolio = countTradesFor s st.portfolio ∧
      s ∈ (st.openOne tb ts t).traded_tickers) ∧
    countTradesFor s (st.openOne tb ts t).portfolio ≤ countTradesFor s st.portfolio + 1 ∧
    (countTradesFor s (st.openOne tb ts t).portfolio > countTradesFor s st.portfolio →
      s ∈ (st.openOne tb ts t).traded_tickers) ∧
    countTradesFor s st.portfolio ≤ countTradesFor s (st.openOne tb ts t).portfolio := by
  unfold AlgoEchappee.openOne
  split
  case isFalse =>
    exact ⟨fun h => ⟨rfl, h⟩, by omega, fun h => absurd h (by omega), le_refl _⟩
  case isTrue hg =>
    split
    case h_2 =>
      exact ⟨fun h => ⟨rfl, h⟩, by omega, fun h => absurd h (by omega), le_refl _⟩
    case h_1 lp hlp =>
      split
      case isFalse =>
        exact ⟨fun h => ⟨rfl, h⟩, by omega, fun h => absurd h (by omega), le_refl _⟩
      case isTrue hlp0 =>
        dsimp only
        split
        case isFalse =>
          exact ⟨fun h => ⟨rfl, h⟩, by omega, fun h => absurd h (by omega), le_refl _⟩
        case isTrue hq =>
          rcases open_trade_cases st.portfolio t (pyInt (st.trade_value_eur / lp)) tb ts with
            hfail | ⟨lp2, hlp2, hc2, hsucc⟩
          · rw [hfail]
            dsimp only
            rw [if_neg (by decide : ¬ (false = true))]
            dsimp only
            exact ⟨fun h => ⟨rfl, h⟩, by omega, fun h => absurd h (by omega), le_refl _⟩
          · rw [hsucc]
            dsimp only
            rw [if_pos rfl]
            dsimp only
            have hcount := countTradesFor_append s st.portfolio
              (openTradeMk t (pyInt (st.trade_value_eur / lp)) lp2 ts)
              (st.portfolio.cash - lp2 * (pyInt (st.trade_value_eur / lp) : ℤ))
            have htkmk : (openTradeMk t (pyInt (st.trade_value_eur / lp)) lp2 ts).ticker = t := rfl
            rw [htkmk] at hcount
            refine ⟨?_, ?_, ?_, ?_⟩
            · intro hmem
              have hts : ¬ (t = s) := by
                intro hts
                rw [hts] at hg
                exact hg.1 hmem
              rw [hcount, if_neg hts]
              exact ⟨by omega, List.mem_append.mpr (Or.inl hmem)⟩
            · rw [hcount]
              by_cases hts : t = s
              · rw [if_pos hts]
              · rw [if_neg hts]
                omega
            · intro hgt
              rw [hcount] at hgt
              by_cases hts : t = s
              · exact List.mem_append.mpr (Or.inr (List.mem_singleton.mpr hts.symm))
              · rw [if_neg hts] at hgt
                omega
            · rw [hcount]
              omega

theorem calcEch_state (a : AlgoEchappee) (tb : SortedPnlTable) (ts : ℚ) :
    (a.calculate_echappees tb ts).1.portfolio = a.portfolio ∧
    (a.calculate_echappees tb ts).1.traded_tickers = a.traded_tickers := by
  unfold AlgoEchappee.calculate_echappees
  dsimp only
  repeat' first
    | exact ⟨rfl, rfl⟩
    | split

theorem openLoop_spec (tb : SortedPnlTable) (ts : ℚ) (s : String) :
    ∀ (l : List String) (st : AlgoEchappee),
      (s ∈ st.traded_tickers →
        countTradesFor s (l.foldl (fun a t => a.openOne tb ts t) st).portfolio =
          countTradesFor s st.portfolio ∧
        s ∈ (l.foldl (fun a t => a.openOne tb ts t) st).traded_tickers) ∧
      countTradesFor s (l.foldl (fun a t => a.openOne tb ts t) st).portfolio ≤
        countTradesFor s st.portfolio + 1 ∧
      (countTradesFor s (l.foldl (fun a t => a.openOne tb ts t) st).portfolio >
          countTradesFor s st.portfolio →
        s ∈ (l.foldl (fun a t => a.openOne tb ts t) st).traded_tickers) ∧
      countTradesFor s st.portfolio ≤
        countTradesFor s (l.foldl (fun a t => a.openOne tb ts t) st).portfolio := by
  intro l
  induction l with
  | nil =>
    intro st
    exact ⟨fun h => ⟨rfl, h⟩, Nat.le_succ _, fun h => absurd h (lt_irrefl _), le_refl _⟩
  | cons t l ih =>
    intro st
    have hfold : (t :: l).foldl (fun a x => a.openOne tb ts x) st =
        l.foldl (fun a x => a.openOne tb ts x) (st.openOne tb ts t) := rfl
    rw [hfold]
    have h1 := openOne_spec tb ts t s st
    have h2 := ih (st.openOne tb ts t)
    refine ⟨?_, ?_, ?_, ?_⟩
    · intro hmem
      obtain ⟨hc1, hm1⟩ := h1.1 hmem
      obtain ⟨hc2, hm2⟩ := h2.1 hm1
      exact ⟨by rw [hc2, hc1], hm2⟩
    · by_cases hgt : countTradesFor s (st.openOne tb ts t).portfolio >
          countTradesFor s st.portfolio
      · have hm1 := h1.2.2.1 hgt
        obtain ⟨hc2, _⟩ := h2.1 hm1
        have hb1 := h1.2.1
        omega
      · have heq : countTradesFor s (st.openOne tb ts t).portfolio =
            countTradesFor s st.portfolio :=
          le_antisymm (not_lt.mp hgt) h1.2.2.2
        have hb2 := h2.2.1
        omega
    · intro hgt
      by_cases hgt1 : countTradesFor s (st.openOne tb ts t).portfolio >
          countTradesFor s st.portfolio
      · have hm1 := h1.2.2.1 hgt1
        exact (h2.1 hm1).2
      · have heq : countTradesFor s (st.openOne tb ts t).portfolio =
            countTradesFor s st.portfolio :=
          le_antisymm (not_lt.mp hgt1) h1.2.2.2
        exact h2.2.2.1 (by omega)
    · have hd1 := h1.2.2.2
      have hd2 := h2.2.2.2
      omega

theorem openPhase_spec (tb : SortedPnlTable) (ts : ℚ) (s : String) (st : AlgoEchappee) :
    (s ∈ st.traded_tickers →
      countTradesFor s (st.openPhase tb ts).portfolio = countTradesFor s st.portfolio ∧
      s ∈ (st.openPhase tb ts).traded_tickers) ∧
    countTradesFor s (st.openPhase tb ts).portfolio ≤ countTradesFor s st.portfolio + 1 ∧
    (countTradesFor s (st.openPhase tb ts).portfolio > countTradesFor s st.portfolio →
      s ∈ (st.openPhase tb ts).traded_tickers) ∧
    countTradesFor s st.portfolio ≤ countTradesFor s (st.openPhase tb ts).portfolio := by
  unfold AlgoEchappee.openPhase
  split
  · dsimp only
    obtain ⟨hp, ht⟩ := calcEch_state st tb ts
    have h := openLoop_spec tb ts s (st.calculate_echappees tb ts).2
      (st.calculate_echappees tb ts).1
    rw [hp, ht] at h
    exact h
  · exact ⟨fun h => ⟨rfl, h⟩, by omega, fun h => absurd h (by omega), le_refl _⟩

theorem periodic_traded_mono (tb : SortedPnlTable) (ts : ℚ) (s : String)
    (a : AlgoEchappee) (h : s ∈ a.traded_tickers) :
    s ∈ (a.periodicPhase tb ts).1.traded_tickers := by
  unfold AlgoEchappee.periodicPhase
  dsimp only
  repeat' first
    | exact List.mem_append.mpr (Or.inl h)
    | exact h
    | split

theorem breakoutOpens_cons (s : String) (a : AlgoEchappee) (tb : SortedPnlTable) (ts : ℚ)
    (rest : List (SortedPnlTable × ℚ)) :
    AlgoEchappee.breakoutOpens s a ((tb, ts) :: rest) =
      (countTradesFor s (((a.exitPhase tb ts).stopPhase tb ts).openPhase tb ts).portfolio -
        countTradesFor s ((a.exitPhase tb ts).stopPhase tb ts).portfolio) +
      AlgoEchappee.breakoutOpens s
        ((((a.exitPhase tb ts).stopPhase tb ts).openPhase tb ts).periodicPhase tb ts).1
        rest := rfl

/-- **C9**: within one single-day run, at most one breakout entry is ever
opened per symbol: over any sequence of strategy cycles, the number of
trades the breakout-entry block books for a symbol is at most 1; and if
the symbol is already in `traded_tickers` (it was traded by either the
breakout or the periodic path), the breakout block books zero trades for
it for the rest of the day, even after its position has been closed. -/
theorem C9_breakout_once_per_symbol (s : String) (inputs : List (SortedPnlTable × ℚ)) :
    ∀ st : AlgoEchappee,
      (s ∈ st.traded_tickers → AlgoEchappee.breakoutOpens s st inputs = 0) ∧
      AlgoEchappee.breakoutOpens s st inputs ≤ 1 := by
  induction inputs with
  | nil =>
    intro st
    exact ⟨fun _ => rfl, Nat.zero_le 1⟩
  | cons hd rest ih =>
    intro st
    obtain ⟨tb, ts⟩ := hd
    have hcons := breakoutOpens_cons s st tb ts rest
    have htr : ((st.exitPhase tb ts).stopPhase tb ts).traded_tickers = st.traded_tickers := by
      rw [stopPhase_traded, exitPhase_traded]
    have hop := openPhase_spec tb ts s ((st.exitPhase tb ts).stopPhase tb ts)
    have hih := ih ((((st.exitPhase tb ts).stopPhase tb ts).openPhase tb ts).periodicPhase tb ts).1
    constructor
    · intro hmem
      rw [← htr] at hmem
      obtain ⟨hceq, hmem3⟩ := hop.1 hmem
      have h0 := hih.1 (periodic_traded_mono tb ts s _ hmem3)
      rw [hcons, hceq, Nat.sub_self, h0]
    · by_cases hgt :
          countTradesFor s (((st.exitPhase tb ts).stopPhase tb ts).openPhase tb ts).portfolio >
          countTradesFor s ((st.exitPhase tb ts).stopPhase tb ts).portfolio
      · have hmem3 := hop.2.2.1 hgt
        have h0 := hih.1 (periodic_traded_mono tb ts s _ hmem3)
        rw [hcons, h0]
        have hb := hop.2.1
        omega
      · have heq :
            countTradesFor s (((st.exitPhase tb ts).stopPhase tb ts).openPhase tb ts).portfolio =
            countTradesFor s ((st.exitPhase tb ts).stopPhase tb ts).portfolio :=
          le_antisymm (not_lt.mp hgt) hop.2.2.2
        rw [hcons, heq, Nat.sub_self]
        have hr := hih.2
        omega

def c9Params : StrategyParams :=
  { take_profit_market_pnl := 1000, min_escape_time := 300,
    trail_stop_market_pnl := 20, stop_echappee_threshold := 0,
    start_echappee_threshold := 78 / 100, min_market_pnl := 15,
    top_n_threshold := 5, trade_interval_minutes := 30, trade_value_eur := 1000 }

def c9Algo : AlgoEchappee :=
  { AlgoEchappee.init c9Params with traded_tickers := ["X"] }

def c9Table : SortedPnlTable :=
  { ticker_map := [], sorted_tickers := [], updates_since_last_sort := 0 }

theorem C9_witness :
    ("X" : String) ∈ c9Algo.traded_tickers ∧
    AlgoEchappee.breakoutOpens "X" c9Algo [(c9Table, 39600)] = 0 :=
  ⟨by decide, (C9_breakout_once_per_symbol "X" [(c9Table, 39600)] c9Algo).1 (by decide)⟩
